import Mathlib

/-!
Shallow embedding of `aiobservable/observable.py`: the `Subscription` and
`Observable` classes.

Modelling choices:
- Event type tags (`type(event)` in Python, the dispatch key) are the
  inductive `Tag`; the internal `ListenerError` class has its own tag.
- Events are an inductive type: ordinary events carry a user tag and an
  opaque payload; `ListenerError` events carry the original event, the
  failing callback and the error, as in `abstract.ListenerError`.
- Callbacks, predicates, errors and child emitters are opaque and are
  identified by `Nat` ids; registries compare them by equality exactly as
  the Python lists do.  Their behaviour is supplied by semantic
  environments: `cbSem cb e = none` means the callback returns normally,
  `some err` means it raises error `err`; `predSem p e` is the boolean a
  predicate returns.
- Python dicts whose absent key behaves exactly like an empty list
  (`__listeners`, `__once_listeners`, `__subscriptions`) are modelled as
  total functions into lists.
- The cooperative single-threaded asyncio scheduler is modelled by running
  the tasks created by one emission sequentially, in creation order, each
  to completion; `asyncio.Event` is a boolean flag, a blocked
  `await event.wait()` is the `none` result of a step function.
-/

/-- Runtime type tags.  `listenerError` is the tag of the internal
`ListenerError` event class; `user n` are all other event classes. -/
inductive Tag where
  | listenerError
  | user (n : Nat)
deriving DecidableEq, Repr

/-- Events: an opaque user event (tag + payload), or a `ListenerError`
carrying the original event, the failing callback id and the error id. -/
inductive Event where
  | user (tag : Nat) (payload : Nat)
  | listenerError (orig : Event) (callback : Nat) (error : Nat)
deriving DecidableEq, Repr

/-- The Python `type(event)` as a `Tag`. -/
def Event.tagOf : Event → Tag
  | .user t _ => Tag.user t
  | .listenerError _ _ _ => Tag.listenerError

/-- Errors raised synchronously by the `Observable` API.  `typeRejected` is
the `TypeError` of `__check_event`; `duplicateListener` the `ValueError` of
`_check_listener`; `notListening` the `ValueError` of `off`. -/
inductive ObsError where
  | typeRejected
  | duplicateListener
  | notListening
deriving DecidableEq, Repr

/-- The `SubscriptionClosed` exception raised by `Subscription._next`. -/
inductive SubError where
  | subscriptionClosed
deriving DecidableEq, Repr

/-- State of `Subscription`: `closed` is `__closed`, `eventSet` is whether
the `asyncio.Event` `__event_set` is set, `current` is `__current`. -/
structure Subscription where
  closed : Bool
  eventSet : Bool
  current : Option Event
deriving DecidableEq, Repr

namespace Subscription

/-- Constructor `Subscription.__init__`: open, signal clear, no buffered event. -/
def init : Subscription :=
  { closed := false, eventSet := false, current := none }

/-- Method `Subscription._emit(event)` (the hub-side push).  If the subscription is
closed the event is dropped and a warning is logged (the returned `Bool` is
the "warning logged" flag); otherwise `__current` is overwritten and
`__event_set` is set. -/
def _emit (s : Subscription) (event : Event) : Subscription × Bool :=
  if s.closed then
    (s, true)
  else
    ({ s with current := some event, eventSet := true }, false)

/-- Method `Subscription._next()`.  `await self.__event_set.wait()` blocks while the
signal is clear: that is the `none` result.  Once the signal is set: if
closed, raise `SubscriptionClosed`; otherwise clear the signal and return
`__current` together with the successor state. -/
def _next (s : Subscription) :
    Option (Except SubError (Option Event × Subscription)) :=
  if s.eventSet then
    if s.closed then
      some (Except.error SubError.subscriptionClosed)
    else
      some (Except.ok (s.current, { s with eventSet := false }))
  else
    none

/-- Method `Subscription.unsubscribe()`.  A no-op when already closed; otherwise
invokes the owned removal callback (the returned `Bool` reports that the
callback was invoked), sets `closed` and sets the signal. -/
def unsubscribe (s : Subscription) : Subscription × Bool :=
  if s.closed then
    (s, false)
  else
    ({ s with closed := true, eventSet := true }, true)

/-- Pushing a list of events in order (`_emit` for each). -/
def pushAll (s : Subscription) (events : List Event) : Subscription :=
  events.foldl (fun st e => (st._emit e).1) s

end Subscription

/-- State of `Observable`.  `listeners` is `__listeners`, `onceListeners`
is `__once_listeners` (lists of `(callback, predicate)` pairs),
`childEmitters` is `__child_emitters` (opaque child-hub ids),
`subscriptions` is `__subscriptions` (subscription ids, keyed by a tag or
the wildcard key `none`), `events` is `__events`.  A dict with no entry
for a key behaves exactly as an entry holding `[]`, so dicts are total
functions into lists. -/
structure Observable where
  listeners : Tag → List Nat
  onceListeners : Tag → List (Nat × Option Nat)
  childEmitters : List Nat
  subscriptions : Option Tag → List Nat
  events : Option (List Tag)

namespace Observable

/-- Constructor `Observable.__init__(events)`: empty registries; when an allow-list is
given it is copied and `ListenerError`'s tag is added to it
(`events.update((ListenerError,))`). -/
def init (events : Option (List Tag)) : Observable :=
  { listeners := fun _ => []
    onceListeners := fun _ => []
    childEmitters := []
    subscriptions := fun _ => []
    events := events.map (fun evs => evs.insert Tag.listenerError) }

/-- Method `Observable.__check_event(event)`: raises `TypeError` when an allow-list
is present and the tag is not in it. -/
def checkEvent (h : Observable) (event : Tag) : Except ObsError Unit :=
  match h.events with
  | none => Except.ok ()
  | some evs =>
    if event ∈ evs then Except.ok () else Except.error ObsError.typeRejected

/-- Helper `_check_listener(event, listeners, listener)`: raises `ValueError` when
the listener is already in the container. -/
def _check_listener (listeners : List Nat) (listener : Nat) :
    Except ObsError Unit :=
  if listener ∈ listeners then Except.error ObsError.duplicateListener
  else Except.ok ()

/-- Method `Observable.on(event, callback)` (`on` is a Lean keyword, hence `on'`):
check the tag, check for a duplicate among the permanent listeners of that
tag, then append. -/
def on' (h : Observable) (event : Tag) (callback : Nat) :
    Except ObsError Observable := do
  h.checkEvent event
  let listeners := h.listeners event
  _check_listener listeners callback
  Except.ok { h with
    listeners := Function.update h.listeners event (listeners ++ [callback]) }

/-- Method `Observable.off(event = None, callback = None)`.
With no tag: replace the whole dict by `{}` (clears every permanent
listener).  With a tag: check the tag; with no callback, `del` the entry
(`KeyError` passes silently); with a callback, `list.remove` the first
occurrence, turning `KeyError`/`ValueError` into the "not listening"
`ValueError`. -/
def off (h : Observable) (event : Option Tag) (callback : Option Nat) :
    Except ObsError Observable :=
  match event with
  | none => Except.ok { h with listeners := fun _ => [] }
  | some ev => do
    h.checkEvent ev
    match callback with
    | none =>
      Except.ok { h with listeners := Function.update h.listeners ev [] }
    | some cb =>
      if cb ∈ h.listeners ev then
        Except.ok { h with
          listeners := Function.update h.listeners ev
            ((h.listeners ev).erase cb) }
      else
        Except.error ObsError.notListening

/-- Method `Observable.once(event, callback, predicate)`: check the tag; when the
pair list for the tag is non-empty, `next(zip(*tups))` yields its first
components and `_check_listener` is run against them (on an empty list the
`StopIteration` skips the check); then append the pair. -/
def once (h : Observable) (event : Tag) (callback : Nat)
    (predicate : Option Nat) : Except ObsError Observable := do
  h.checkEvent event
  let tups := h.onceListeners event
  _check_listener (tups.map Prod.fst) callback
  Except.ok { h with
    onceListeners := Function.update h.onceListeners event
      (tups ++ [(callback, predicate)]) }

/-- Method `Observable.__emit_subscriptions(event)` restricted to the order of the
pushes: the subscriptions under the event's tag (`KeyError` → nothing),
then the subscriptions under the wildcard key, each in insertion order. -/
def emitSubscriptions (h : Observable) (event : Event) : List Nat :=
  [] ++ h.subscriptions (some event.tagOf) ++ h.subscriptions none

end Observable

/-- The predicate guard at the top of the one-shot `fire` task:
`predicate is None or await maybe_await(predicate(event))`. -/
def acceptsOnce (predSem : Nat → Event → Bool) (event : Event)
    (tup : Nat × Option Nat) : Bool :=
  match tup.2 with
  | none => true
  | some p => predSem p event

/-- Sequential run of the tasks created by `__emit_once_listeners` for one
emission.  `snapshot` is the iteration order fixed when the tasks are
created; `cur` is the live `__once_listeners[type(event)]` list that
`list.remove` mutates.  Each task: if the predicate rejects, do nothing;
otherwise remove the pair from the live list — a `ValueError` (pair
already gone) aborts silently — and only then fire the callback.  Returns
the final live list and the callbacks fired, in task order. -/
def runOnceTasks (predSem : Nat → Event → Bool) (event : Event) :
    List (Nat × Option Nat) → List (Nat × Option Nat) →
    List (Nat × Option Nat) × List Nat
  | [], cur => (cur, [])
  | tup :: rest, cur =>
    if acceptsOnce predSem event tup then
      if tup ∈ cur then
        let r := runOnceTasks predSem event rest (cur.erase tup)
        (r.1, tup.1 :: r.2)
      else
        runOnceTasks predSem event rest cur
    else
      runOnceTasks predSem event rest cur

/-- One emission's effect on a once-listener list: the snapshot is the live
list itself. -/
def runOnceList (predSem : Nat → Event → Bool) (event : Event)
    (l : List (Nat × Option Nat)) : List (Nat × Option Nat) × List Nat :=
  runOnceTasks predSem event l l

/-- The synchronous actions and task creations of `Observable.__emit`, in
program order. -/
inductive EmitAction where
  | pushSub (sub : Nat) (event : Event)
  | scheduleOnceTask (callback : Nat) (predicate : Option Nat) (event : Event)
  | scheduleListenerTask (callback : Nat) (event : Event)
  | forwardChild (child : Nat) (event : Event)
deriving DecidableEq, Repr

/-- Is this action a synchronous subscription push? -/
def EmitAction.isPush : EmitAction → Bool
  | .pushSub _ _ => true
  | _ => false

namespace Observable

/-- Method `Observable.__emit`, seen as the ordered list of the actions it
performs before returning its future: check the tag, push the event into
the matching subscriptions, create one task per matching one-shot pair,
one per matching permanent listener, then forward to every child. -/
def emitTrace (h : Observable) (event : Event) :
    Except ObsError (List EmitAction) := do
  let event_type := event.tagOf
  h.checkEvent event_type
  let subActions := (h.emitSubscriptions event).map
    (fun s => EmitAction.pushSub s event)
  let onceActions := (h.onceListeners event_type).map
    (fun tup => EmitAction.scheduleOnceTask tup.1 tup.2 event)
  let listenerActions := (h.listeners event_type).map
    (fun cb => EmitAction.scheduleListenerTask cb event)
  let childActions := h.childEmitters.map
    (fun c => EmitAction.forwardChild c event)
  Except.ok (subActions ++ onceActions ++ listenerActions ++ childActions)

end Observable

/-- Observable side effects of running one emission and all tasks it
creates to completion.  `invoked` records each callback invocation with its
event (including invocations that then raise); `logged` the
`log.error` entries `(callback, event, error)`; `reemitted` the
`ListenerError` events re-emitted on the hub; `pushed` the subscription
pushes; `forwarded` the events handed to child emitters. -/
structure EmitOutcome where
  invoked : List (Nat × Event) := []
  logged : List (Nat × Event × Nat) := []
  reemitted : List Event := []
  pushed : List (Nat × Event) := []
  forwarded : List (Nat × Event) := []
deriving DecidableEq, Repr

/-- Concatenation of outcomes, in execution order. -/
def EmitOutcome.append (a b : EmitOutcome) : EmitOutcome :=
  { invoked := a.invoked ++ b.invoked
    logged := a.logged ++ b.logged
    reemitted := a.reemitted ++ b.reemitted
    pushed := a.pushed ++ b.pushed
    forwarded := a.forwarded ++ b.forwarded }

/-- The empty outcome. -/
def EmitOutcome.empty : EmitOutcome := {}

/-- Join a list of outcomes in order. -/
def joinOutcomes : List EmitOutcome → EmitOutcome
  | [] => {}
  | o :: rest => o.append (joinOutcomes rest)

namespace Observable

/-- The task body of `__fire_listener` with `ignore_exceptions = True`:
invoke the callback; on failure log the error and do nothing else. -/
def fireListenerIg (cbSem : Nat → Event → Option Nat) (listener : Nat)
    (event : Event) : EmitOutcome :=
  match cbSem listener event with
  | none => { invoked := [(listener, event)] }
  | some err =>
    { invoked := [(listener, event)], logged := [(listener, event, err)] }

/-- Run of `Observable.__emit(event, ignore_exceptions=True)` to completion
under the sequential task model: check the tag; push the subscriptions;
run the one-shot tasks (removing fired pairs from the registry); fire the
fired one-shot callbacks and the permanent listeners, each with
failure-logging only; forward to the children.  Listener failures are
logged and never re-emitted. -/
def runEmitIg (cbSem : Nat → Event → Option Nat)
    (predSem : Nat → Event → Bool) (h : Observable) (event : Event) :
    Except ObsError (Observable × EmitOutcome) := do
  let event_type := event.tagOf
  h.checkEvent event_type
  let pushed := (h.emitSubscriptions event).map (fun s => (s, event))
  let onceList := h.onceListeners event_type
  let r := runOnceTasks predSem event onceList onceList
  let h1 := { h with
    onceListeners := Function.update h.onceListeners event_type r.1 }
  let onceOut := joinOutcomes (r.2.map (fun cb => fireListenerIg cbSem cb event))
  let permOut := joinOutcomes
    ((h.listeners event_type).map (fun cb => fireListenerIg cbSem cb event))
  let forwarded := h.childEmitters.map (fun c => (c, event))
  Except.ok (h1,
    EmitOutcome.append { pushed := pushed, forwarded := forwarded }
      (EmitOutcome.append onceOut permOut))

/-- The task body of `__fire_listener` with `ignore_exceptions = False`:
invoke the callback; on failure log the error and re-emit a
`ListenerError(event, listener, error)` on the same hub with
`ignore_exceptions = True`.  The nested emission may update the hub's
once-listener registry (for the `ListenerError` tag), so the hub state is
threaded through.  (The error branch of the nested emission is unreachable
for a constructor-built hub: `ListenerError`'s tag is always permitted.) -/
def fireListenerFull (cbSem : Nat → Event → Option Nat)
    (predSem : Nat → Event → Bool) (h : Observable) (listener : Nat)
    (event : Event) : Observable × EmitOutcome :=
  match cbSem listener event with
  | none => (h, { invoked := [(listener, event)] })
  | some err =>
    let le := Event.listenerError event listener err
    let base : EmitOutcome :=
      { invoked := [(listener, event)], logged := [(listener, event, err)] }
    match runEmitIg cbSem predSem h le with
    | Except.error _ => (h, base)
    | Except.ok r =>
      (r.1, EmitOutcome.append (EmitOutcome.append base { reemitted := [le] })
        r.2)

/-- Run `fireListenerFull` for each callback in task-creation order,
threading the hub state and collecting the outcomes. -/
def runListenersFull (cbSem : Nat → Event → Option Nat)
    (predSem : Nat → Event → Bool) (h : Observable) :
    List Nat → Event → Observable × EmitOutcome
  | [], _ => (h, {})
  | cb :: rest, event =>
    let r := fireListenerFull cbSem predSem h cb event
    let r2 := runListenersFull cbSem predSem r.1 rest event
    (r2.1, EmitOutcome.append r.2 r2.2)

/-- Run of `Observable.__emit(event, ignore_exceptions=False)` — the body of
`Observable.emit` — run to completion under the sequential task model:
check the tag; push the subscriptions; run the one-shot tasks against the
live registry; fire the fired one-shot callbacks, then the permanent
listeners, each failure being logged and re-emitted as a `ListenerError`
with `ignore_exceptions = True`; forward to the children. -/
def runEmitFull (cbSem : Nat → Event → Option Nat)
    (predSem : Nat → Event → Bool) (h : Observable) (event : Event) :
    Except ObsError (Observable × EmitOutcome) := do
  let event_type := event.tagOf
  h.checkEvent event_type
  let pushed := (h.emitSubscriptions event).map (fun s => (s, event))
  let onceList := h.onceListeners event_type
  let r := runOnceTasks predSem event onceList onceList
  let h1 := { h with
    onceListeners := Function.update h.onceListeners event_type r.1 }
  let r1 := runListenersFull cbSem predSem h1 r.2 event
  let r2 := runListenersFull cbSem predSem r1.1 (h.listeners event_type) event
  let forwarded := h.childEmitters.map (fun c => (c, event))
  Except.ok (r2.1,
    EmitOutcome.append { pushed := pushed, forwarded := forwarded }
      (EmitOutcome.append r1.2 r2.2))

/-- Public `Observable.emit(event)` is `__emit(event, ignore_exceptions=False)`. -/
def emit (cbSem : Nat → Event → Option Nat) (predSem : Nat → Event → Bool)
    (h : Observable) (event : Event) :
    Except ObsError (Observable × EmitOutcome) :=
  runEmitFull cbSem predSem h event

/-- A sequence of `emit` calls, each awaited before the next. -/
def emitSeq (cbSem : Nat → Event → Option Nat)
    (predSem : Nat → Event → Bool) (h : Observable) :
    List Event → Except ObsError (Observable × List EmitOutcome)
  | [] => Except.ok (h, [])
  | e :: rest => do
    let r ← runEmitFull cbSem predSem h e
    let r2 ← emitSeq cbSem predSem r.1 rest
    Except.ok (r2.1, r.2 :: r2.2)

end Observable

theorem exceptBind_ok {α β ε : Type} (a : α) (f : α → Except ε β) :
    (Except.ok a >>= f) = f a := rfl

theorem exceptBind_error {α β ε : Type} (e : ε) (f : α → Except ε β) :
    ((Except.error e : Except ε α) >>= f) = Except.error e := rfl

namespace Subscription

/-- The push `_emit` never changes `closed`. -/
theorem _emit_closed (s : Subscription) (e : Event) :
    ((s._emit e).1).closed = s.closed := by
  by_cases h : s.closed <;> simp [Subscription._emit, h]

/-- The fold `pushAll` never changes `closed`. -/
theorem pushAll_closed (s : Subscription) (es : List Event) :
    (s.pushAll es).closed = s.closed := by
  induction es generalizing s with
  | nil => rfl
  | cons e rest ih =>
    have : s.pushAll (e :: rest) = ((s._emit e).1).pushAll rest := rfl
    rw [this, ih, _emit_closed]

end Subscription

/-- C3: for an open subscription, after any sequence of pushes ending in
`e`, the next `_next` call succeeds and returns exactly `e` — the most
recent pushed event — clearing the ready signal; earlier unconsumed pushes
are overwritten, never queued. -/
theorem sub_next_returns_latest (s : Subscription) (es : List Event)
    (e : Event) (hopen : s.closed = false) :
    Subscription._next (s.pushAll (es ++ [e])) =
      some (Except.ok ((some e : Option Event),
        { s.pushAll (es ++ [e]) with eventSet := false })) := by
  have h1 : s.pushAll (es ++ [e]) = ((s.pushAll es)._emit e).1 := by
    simp [Subscription.pushAll, List.foldl_append]
  have h2 : (s.pushAll es).closed = false := by
    rw [Subscription.pushAll_closed]; exact hopen
  rw [h1]
  simp [Subscription._emit, h2, Subscription._next]

/-- Witness for C3: two pushes with no intervening read; `next` returns
only the second event. -/
theorem sub_next_returns_latest_witness :
    Subscription.init.closed = false ∧
    Subscription._next (Subscription.init.pushAll
        [Event.user 0 1, Event.user 0 2]) =
      some (Except.ok ((some (Event.user 0 2) : Option Event),
        { Subscription.init.pushAll [Event.user 0 1, Event.user 0 2] with
            eventSet := false })) :=
  ⟨rfl, sub_next_returns_latest Subscription.init [Event.user 0 1]
    (Event.user 0 2) rfl⟩

/-- C9: pushing an event into a closed subscription returns the state
unchanged (slot and ready signal untouched), logs the warning (the `true`
flag) and raises nothing — `_emit` is total. -/
theorem sub_push_closed_drops (s : Subscription) (e : Event)
    (hclosed : s.closed = true) :
    s._emit e = (s, true) := by
  simp [Subscription._emit, hclosed]

/-- Witness for C9 at a concrete closed subscription. -/
theorem sub_push_closed_drops_witness :
    ({ closed := true, eventSet := false,
       current := some (Event.user 3 3) } : Subscription).closed = true ∧
    ({ closed := true, eventSet := false,
       current := some (Event.user 3 3) } : Subscription)._emit
        (Event.user 1 1) =
      (({ closed := true, eventSet := false,
          current := some (Event.user 3 3) } : Subscription), true) :=
  ⟨rfl, sub_push_closed_drops _ (Event.user 1 1) rfl⟩

/-- C10: a successful `_next` clears the ready signal, so a further `_next`
with no intervening push blocks (returns `none`) — the buffered event is
never returned twice; only a new push re-arms the slot, after which `_next`
returns that new event. -/
theorem sub_next_consumes (s s' : Subscription) (ev : Option Event)
    (h : Subscription._next s = some (Except.ok (ev, s'))) :
    Subscription._next s' = none ∧ s'.closed = false ∧
    ∀ e, Subscription._next ((s'._emit e).1) =
      some (Except.ok ((some e : Option Event),
        { (s'._emit e).1 with eventSet := false })) := by
  obtain ⟨cl, es, cur⟩ := s
  cases cl <;> cases es <;> simp [Subscription._next] at h
  obtain ⟨h1, h2⟩ := h
  subst h2
  simp [Subscription._next, Subscription._emit]

/-- Witness for C10: consume one pushed event, then observe the blocked
read and the re-armed read after a fresh push. -/
theorem sub_next_consumes_witness :
    Subscription._next ((Subscription.init._emit (Event.user 0 7)).1) =
      some (Except.ok ((some (Event.user 0 7) : Option Event),
        { (Subscription.init._emit (Event.user 0 7)).1 with
            eventSet := false })) ∧
    Subscription._next
        ({ (Subscription.init._emit (Event.user 0 7)).1 with
            eventSet := false }) = none :=
  ⟨rfl, (sub_next_consumes (Subscription.init._emit (Event.user 0 7)).1 _
    (some (Event.user 0 7)) rfl).1⟩

/-- C6: on an open subscription, `unsubscribe` invokes the removal callback
(flag `true`), closes the subscription and sets the ready signal; a second
`unsubscribe` is a no-op that does not invoke the callback again; `_next`
on the closed state — including a consumer that was blocked while the
signal was clear — fails with `SubscriptionClosed` instead of hanging, and
pushes leave the closed state unchanged, so every subsequent `_next` fails
the same way. -/
theorem sub_unsubscribe_idempotent (s : Subscription)
    (hopen : s.closed = false) :
    (s.unsubscribe).2 = true ∧
    (s.unsubscribe).1.closed = true ∧
    (s.unsubscribe).1.eventSet = true ∧
    (s.unsubscribe).1.unsubscribe = ((s.unsubscribe).1, false) ∧
    Subscription._next (s.unsubscribe).1 =
      some (Except.error SubError.subscriptionClosed) ∧
    ∀ e, (s.unsubscribe).1._emit e = ((s.unsubscribe).1, true) := by
  simp [Subscription.unsubscribe, hopen, Subscription._next,
    Subscription._emit]

/-- Witness for C6 on a freshly created subscription (a blocked consumer:
the ready signal is clear). -/
theorem sub_unsubscribe_idempotent_witness :
    Subscription.init.closed = false ∧
    (Subscription.init.unsubscribe).2 = true ∧
    Subscription._next (Subscription.init.unsubscribe).1 =
      some (Except.error SubError.subscriptionClosed) :=
  ⟨rfl, (sub_unsubscribe_idempotent Subscription.init rfl).1,
    (sub_unsubscribe_idempotent Subscription.init rfl).2.2.2.2.1⟩

namespace Observable

/-- Check `__check_event` either passes or raises exactly the type-rejection
error. -/
theorem checkEvent_cases (h : Observable) (t : Tag) :
    h.checkEvent t = Except.ok () ∨
    h.checkEvent t = Except.error ObsError.typeRejected := by
  unfold checkEvent
  cases h.events with
  | none => exact Or.inl rfl
  | some evs =>
    by_cases hm : t ∈ evs
    · exact Or.inl (by simp [hm])
    · exact Or.inr (by simp [hm])

/-- A failing type check makes `__emit` (non-ignoring) fail synchronously
with the same error. -/
theorem runEmitFull_check_error (cbSem : Nat → Event → Option Nat)
    (predSem : Nat → Event → Bool) (h : Observable) (e : Event)
    (hc : h.checkEvent e.tagOf = Except.error ObsError.typeRejected) :
    h.runEmitFull cbSem predSem e = Except.error ObsError.typeRejected := by
  simp only [runEmitFull, hc, exceptBind_error]

/-- A passing type check makes `__emit` (non-ignoring) return a future. -/
theorem runEmitFull_check_ok (cbSem : Nat → Event → Option Nat)
    (predSem : Nat → Event → Bool) (h : Observable) (e : Event)
    (hc : h.checkEvent e.tagOf = Except.ok ()) :
    ∃ r, h.runEmitFull cbSem predSem e = Except.ok r := by
  simp only [runEmitFull, hc, exceptBind_ok]
  exact ⟨_, rfl⟩

/-- Membership in the constructed allow-list. -/
theorem init_checkEvent (E : List Tag) (t : Tag) :
    (Observable.init (some E)).checkEvent t =
      (if t = Tag.listenerError ∨ t ∈ E then Except.ok ()
       else Except.error ObsError.typeRejected) := by
  unfold init checkEvent
  simp [List.mem_insert_iff]

end Observable

/-- C5: on a hub constructed with allow-list `E`, `emit` fails
synchronously with the type-rejection error exactly when the event's tag is
neither in `E` nor the `ListenerError` tag (which the constructor always
adds); on a hub constructed without an allow-list, `emit` never rejects.
(`cbSem`/`predSem` give the callbacks' and predicates' behaviour.) -/
theorem emit_type_rejected_iff (E : List Tag)
    (cbSem : Nat → Event → Option Nat) (predSem : Nat → Event → Bool)
    (e : Event) :
    ((Observable.init (some E)).emit cbSem predSem e =
        Except.error ObsError.typeRejected ↔
      ¬(e.tagOf = Tag.listenerError ∨ e.tagOf ∈ E)) ∧
    ∃ r, (Observable.init none).emit cbSem predSem e = Except.ok r := by
  constructor
  · by_cases hm : e.tagOf = Tag.listenerError ∨ e.tagOf ∈ E
    · have hc : (Observable.init (some E)).checkEvent e.tagOf =
          Except.ok () := by rw [Observable.init_checkEvent]; simp [hm]
      obtain ⟨r, hr⟩ :=
        Observable.runEmitFull_check_ok cbSem predSem _ e hc
      simp [Observable.emit, hr, hm]
    · have hc : (Observable.init (some E)).checkEvent e.tagOf =
          Except.error ObsError.typeRejected := by
        rw [Observable.init_checkEvent]; simp [hm]
      have := Observable.runEmitFull_check_error cbSem predSem _ e hc
      simp [Observable.emit, this, hm]
  · have hc : (Observable.init none).checkEvent e.tagOf = Except.ok () := rfl
    exact Observable.runEmitFull_check_ok cbSem predSem _ e hc

/-- Counterexample to C7 as stated: on a hub whose allow-list is
`[user 1]`, no listener at all is registered for tag `user 2`, yet
`off(user 2)` is not a no-op — it raises the type-rejection error, because
`off` checks the tag against the allow-list before looking at the
registry. -/
theorem off_unpermitted_tag_cex :
    (Observable.init (some [Tag.user 1])).listeners (Tag.user 2) = [] ∧
    (Observable.init (some [Tag.user 1])).off (some (Tag.user 2)) none =
      Except.error ObsError.typeRejected :=
  ⟨rfl, rfl⟩

/-- C7 (amended): `off()` with no arguments clears all permanent listeners
and never fails; `off(tag)` and `off(tag, callback)` first validate the
tag against the hub's allow-list and, for any tag outside a restricted
allow-list, both fail with the type-rejection error (whatever the
registry holds); for a tag that passes the allow-list check, `off(tag)`
removes all permanent listeners registered for `tag` and is a no-op when
none are registered, and `off(tag, callback)` removes exactly that
registration, failing with the not-listening error when the pair is
absent. -/
theorem off_behaviors (h : Observable) (tag : Tag) (cb : Nat) :
    (h.off none none = Except.ok { h with listeners := fun _ => [] }) ∧
    (∀ evs, h.events = some evs → tag ∉ evs →
      h.off (some tag) none = Except.error ObsError.typeRejected ∧
      h.off (some tag) (some cb) = Except.error ObsError.typeRejected) ∧
    (h.checkEvent tag = Except.ok () →
      h.off (some tag) none =
        Except.ok { h with
          listeners := Function.update h.listeners tag [] }) ∧
    (h.checkEvent tag = Except.ok () → h.listeners tag = [] →
      ∃ h2, h.off (some tag) none = Except.ok h2 ∧
        ∀ t', h2.listeners t' = h.listeners t') ∧
    (h.checkEvent tag = Except.ok () → cb ∉ h.listeners tag →
      h.off (some tag) (some cb) = Except.error ObsError.notListening) ∧
    (h.checkEvent tag = Except.ok () → cb ∈ h.listeners tag →
      h.off (some tag) (some cb) =
        Except.ok { h with
          listeners := Function.update h.listeners tag
            ((h.listeners tag).erase cb) }) := by
  refine ⟨rfl, ?_, ?_, ?_, ?_, ?_⟩
  · intro evs hevs htag
    have hc : h.checkEvent tag = Except.error ObsError.typeRejected := by
      unfold Observable.checkEvent
      rw [hevs]
      simp [htag]
    constructor <;> simp only [Observable.off, hc, exceptBind_error]
  · intro hc
    simp only [Observable.off, hc, exceptBind_ok]
  · intro hc hempty
    refine ⟨{ h with listeners := Function.update h.listeners tag [] },
      by simp only [Observable.off, hc, exceptBind_ok], ?_⟩
    intro t'
    by_cases ht : t' = tag
    · subst ht; simp [hempty]
    · simp [Function.update_apply, ht]
  · intro hc habs
    simp only [Observable.off, hc, exceptBind_ok]
    simp [habs]
  · intro hc hmem
    simp only [Observable.off, hc, exceptBind_ok]
    simp [hmem]

/-- Witness for C7 (amended): on a hub with allow-list `[user 1]`, the tag
`user 2` is outside the stored allow-list and both `off(user 2)` and
`off(user 2, callback)` fail with the type-rejection error; on an
unrestricted hub holding one listener for `user 0`, the tag check passes,
removal by pair succeeds and an absent pair fails. -/
theorem off_behaviors_witness :
    (Observable.init (some [Tag.user 1])).events =
      some ([Tag.user 1].insert Tag.listenerError) ∧
    Tag.user 2 ∉ [Tag.user 1].insert Tag.listenerError ∧
    (Observable.init (some [Tag.user 1])).off (some (Tag.user 2)) none =
      Except.error ObsError.typeRejected ∧
    (Observable.init (some [Tag.user 1])).off (some (Tag.user 2)) (some 4) =
      Except.error ObsError.typeRejected ∧
    ({ listeners := fun t => if t = Tag.user 0 then [4] else []
       onceListeners := fun _ => []
       childEmitters := []
       subscriptions := fun _ => []
       events := none } : Observable).checkEvent (Tag.user 0) =
        Except.ok () ∧
    (4 ∈ ({ listeners := fun t => if t = Tag.user 0 then [4] else []
            onceListeners := fun _ => []
            childEmitters := []
            subscriptions := fun _ => []
            events := none } : Observable).listeners (Tag.user 0)) ∧
    ({ listeners := fun t => if t = Tag.user 0 then [4] else []
       onceListeners := fun _ => []
       childEmitters := []
       subscriptions := fun _ => []
       events := none } : Observable).off (some (Tag.user 0)) (some 4) =
      Except.ok { ({ listeners := fun t => if t = Tag.user 0 then [4] else []
                     onceListeners := fun _ => []
                     childEmitters := []
                     subscriptions := fun _ => []
                     events := none } : Observable) with
        listeners := Function.update
          (fun t => if t = Tag.user 0 then [4] else []) (Tag.user 0)
          (((fun t => if t = Tag.user 0 then ([4] : List Nat) else [])
              (Tag.user 0)).erase 4) } :=
  ⟨rfl, by decide,
    ((off_behaviors (Observable.init (some [Tag.user 1])) (Tag.user 2) 4).2.1
      ([Tag.user 1].insert Tag.listenerError) rfl (by decide)).1,
    ((off_behaviors (Observable.init (some [Tag.user 1])) (Tag.user 2) 4).2.1
      ([Tag.user 1].insert Tag.listenerError) rfl (by decide)).2,
    rfl, by simp,
    (off_behaviors { listeners := fun t => if t = Tag.user 0 then [4] else []
                     onceListeners := fun _ => []
                     childEmitters := []
                     subscriptions := fun _ => []
                     events := none } (Tag.user 0) 4).2.2.2.2.2 rfl
      (by simp)⟩

/-- C4: when the type check passes, `__emit`'s action sequence is exactly:
the synchronous pushes into the subscriptions registered under the event's
tag followed by those under the wildcard key (each list in insertion
order), then the scheduling of one task per one-shot pair, then one task
per permanent listener, then the child-hub forwards; in particular every
subscription push precedes every scheduled unit of work. -/
theorem emit_sync_push_then_schedule (h : Observable) (e : Event)
    (hc : h.checkEvent e.tagOf = Except.ok ()) :
    ∃ tr, h.emitTrace e = Except.ok tr ∧
      tr = ((h.subscriptions (some e.tagOf) ++ h.subscriptions none).map
              (fun s => EmitAction.pushSub s e))
        ++ ((h.onceListeners e.tagOf).map
              (fun tup => EmitAction.scheduleOnceTask tup.1 tup.2 e))
        ++ ((h.listeners e.tagOf).map
              (fun cb => EmitAction.scheduleListenerTask cb e))
        ++ (h.childEmitters.map (fun c => EmitAction.forwardChild c e)) ∧
      ∀ (i j : Nat) (hi : i < tr.length) (hj : j < tr.length),
        (tr.get ⟨i, hi⟩).isPush = true →
        (tr.get ⟨j, hj⟩).isPush = false → i < j := by
  have htrace : h.emitTrace e = Except.ok
      (((h.emitSubscriptions e).map (fun s => EmitAction.pushSub s e))
        ++ ((h.onceListeners e.tagOf).map
              (fun tup => EmitAction.scheduleOnceTask tup.1 tup.2 e))
        ++ ((h.listeners e.tagOf).map
              (fun cb => EmitAction.scheduleListenerTask cb e))
        ++ (h.childEmitters.map (fun c => EmitAction.forwardChild c e))) := by
    simp only [Observable.emitTrace, hc, exceptBind_ok]
  refine ⟨_, htrace, ?_, ?_⟩
  · simp [Observable.emitSubscriptions]
  · set P := ((h.subscriptions (some e.tagOf) ++ h.subscriptions none).map
      (fun s => EmitAction.pushSub s e)) with hP
    set R := ((h.onceListeners e.tagOf).map
              (fun tup => EmitAction.scheduleOnceTask tup.1 tup.2 e))
        ++ ((h.listeners e.tagOf).map
              (fun cb => EmitAction.scheduleListenerTask cb e))
        ++ (h.childEmitters.map (fun c => EmitAction.forwardChild c e))
      with hR
    have htr : ((h.emitSubscriptions e).map (fun s => EmitAction.pushSub s e))
        ++ ((h.onceListeners e.tagOf).map
              (fun tup => EmitAction.scheduleOnceTask tup.1 tup.2 e))
        ++ ((h.listeners e.tagOf).map
              (fun cb => EmitAction.scheduleListenerTask cb e))
        ++ (h.childEmitters.map (fun c => EmitAction.forwardChild c e))
        = P ++ R := by
      simp [Observable.emitSubscriptions, hP, hR]
    rw [htr]
    have hPush : ∀ a ∈ P, a.isPush = true := by
      intro a ha
      rw [hP] at ha
      obtain ⟨s, _, rfl⟩ := List.mem_map.mp ha
      rfl
    have hRest : ∀ a ∈ R, a.isPush = false := by
      intro a ha
      rw [hR] at ha
      rcases List.mem_append.mp ha with ha | ha
      · rcases List.mem_append.mp ha with ha | ha
        · obtain ⟨tup, _, rfl⟩ := List.mem_map.mp ha
          rfl
        · obtain ⟨cb, _, rfl⟩ := List.mem_map.mp ha
          rfl
      · obtain ⟨c, _, rfl⟩ := List.mem_map.mp ha
        rfl
    intro i j hi hj hpi hpj
    have hiP : i < P.length := by
      by_contra hge
      push_neg at hge
      have hgt : i - P.length < R.length := by
        have := hi
        simp only [List.length_append] at this
        omega
      have : (P ++ R).get ⟨i, hi⟩ = R.get ⟨i - P.length, hgt⟩ := by
        simp only [List.get_eq_getElem]
        exact List.getElem_append_right hge
      rw [this] at hpi
      have := hRest _ (List.get_mem R _ hgt)
      rw [hpi] at this
      cases this
    have hjP : P.length ≤ j := by
      by_contra hlt
      push_neg at hlt
      have : (P ++ R).get ⟨j, hj⟩ = P.get ⟨j, hlt⟩ := by
        simp only [List.get_eq_getElem]
        exact List.getElem_append_left hlt
      rw [this] at hpj
      have := hPush _ (List.get_mem P _ hlt)
      rw [hpj] at this
      cases this
    omega

/-- Witness for C4 on a hub holding a tag subscription, a wildcard
subscription, a one-shot pair, a permanent listener and a child. -/
theorem emit_sync_push_then_schedule_witness :
    ({ listeners := fun t => if t = Tag.user 0 then [2] else []
       onceListeners := fun t => if t = Tag.user 0 then [(3, none)] else []
       childEmitters := [4]
       subscriptions := fun k =>
         if k = some (Tag.user 0) then [5]
         else if k = none then [6] else []
       events := none } : Observable).checkEvent
        (Event.user 0 1).tagOf = Except.ok () ∧
    ∃ tr,
      ({ listeners := fun t => if t = Tag.user 0 then [2] else []
         onceListeners := fun t => if t = Tag.user 0 then [(3, none)] else []
         childEmitters := [4]
         subscriptions := fun k =>
           if k = some (Tag.user 0) then [5]
           else if k = none then [6] else []
         events := none } : Observable).emitTrace (Event.user 0 1) =
        Except.ok tr ∧
      tr = ((({ listeners := fun t => if t = Tag.user 0 then [2] else []
                onceListeners := fun t =>
                  if t = Tag.user 0 then [(3, none)] else []
                childEmitters := [4]
                subscriptions := fun k =>
                  if k = some (Tag.user 0) then [5]
                  else if k = none then [6] else []
                events := none } : Observable).subscriptions
              (some (Event.user 0 1).tagOf)
            ++ ({ listeners := fun t => if t = Tag.user 0 then [2] else []
                  onceListeners := fun t =>
                    if t = Tag.user 0 then [(3, none)] else []
                  childEmitters := [4]
                  subscriptions := fun k =>
                    if k = some (Tag.user 0) then [5]
                    else if k = none then [6] else []
                  events := none } : Observable).subscriptions none).map
              (fun s => EmitAction.pushSub s (Event.user 0 1)))
        ++ ((({ listeners := fun t => if t = Tag.user 0 then [2] else []
                onceListeners := fun t =>
                  if t = Tag.user 0 then [(3, none)] else []
                childEmitters := [4]
                subscriptions := fun k =>
                  if k = some (Tag.user 0) then [5]
                  else if k = none then [6] else []
                events := none } : Observable).onceListeners
              (Event.user 0 1).tagOf).map
              (fun tup => EmitAction.scheduleOnceTask tup.1 tup.2
                (Event.user 0 1)))
        ++ ((({ listeners := fun t => if t = Tag.user 0 then [2] else []
                onceListeners := fun t =>
                  if t = Tag.user 0 then [(3, none)] else []
                childEmitters := [4]
                subscriptions := fun k =>
                  if k = some (Tag.user 0) then [5]
                  else if k = none then [6] else []
                events := none } : Observable).listeners
              (Event.user 0 1).tagOf).map
              (fun cb => EmitAction.scheduleListenerTask cb (Event.user 0 1)))
        ++ (({ listeners := fun t => if t = Tag.user 0 then [2] else []
               onceListeners := fun t =>
                 if t = Tag.user 0 then [(3, none)] else []
               childEmitters := [4]
               subscriptions := fun k =>
                 if k = some (Tag.user 0) then [5]
                 else if k = none then [6] else []
               events := none } : Observable).childEmitters.map
              (fun c => EmitAction.forwardChild c (Event.user 0 1))) ∧
      ∀ (i j : Nat) (hi : i < tr.length) (hj : j < tr.length),
        (tr.get ⟨i, hi⟩).isPush = true →
        (tr.get ⟨j, hj⟩).isPush = false → i < j :=
  ⟨rfl, emit_sync_push_then_schedule
    { listeners := fun t => if t = Tag.user 0 then [2] else []
      onceListeners := fun t => if t = Tag.user 0 then [(3, none)] else []
      childEmitters := [4]
      subscriptions := fun k =>
        if k = some (Tag.user 0) then [5]
        else if k = none then [6] else []
      events := none } (Event.user 0 1) rfl⟩

/-- Characterization of one round of once-listener tasks when the live
list starts as `pre ++ snap` with the snapshot `snap` still to process and
no duplicate pairs: the surviving list keeps exactly the pairs whose
predicate rejects, and the fired callbacks are exactly the first components
of the accepted pairs, in task order. -/
theorem runOnceTasks_eq (predSem : Nat → Event → Bool) (event : Event) :
    ∀ (snap pre : List (Nat × Option Nat)), (pre ++ snap).Nodup →
      runOnceTasks predSem event snap (pre ++ snap) =
        (pre ++ snap.filter (fun tup => !(acceptsOnce predSem event tup)),
         (snap.filter (fun tup => acceptsOnce predSem event tup)).map
           Prod.fst) := by
  intro snap
  induction snap with
  | nil =>
    intro pre _
    simp [runOnceTasks]
  | cons tup rest ih =>
    intro pre hnd
    by_cases hacc : acceptsOnce predSem event tup
    · have hmem : tup ∈ pre ++ tup :: rest := by simp
      have hnotpre : tup ∉ pre := by
        intro hin
        exact (List.disjoint_of_nodup_append hnd) hin (by simp)
      have herase : (pre ++ tup :: rest).erase tup = pre ++ rest := by
        rw [List.erase_append_right _ hnotpre, List.erase_cons_head]
      have hnd2 : (pre ++ rest).Nodup := by
        refine List.Nodup.sublist ?_ hnd
        exact List.Sublist.append_left (List.sublist_cons_self tup rest) pre
      simp only [runOnceTasks, if_pos hacc, if_pos hmem, herase, ih pre hnd2,
        List.filter_cons, hacc]
      simp [hacc]
    · have hnd2 : ((pre ++ [tup]) ++ rest).Nodup := by
        rw [← List.append_cons]
        exact hnd
      have step := ih (pre ++ [tup]) hnd2
      simp only [runOnceTasks, if_neg hacc]
      rw [List.append_cons pre tup rest, step]
      simp only [List.filter_cons]
      have haccb : acceptsOnce predSem event tup = false := by
        simpa using hacc
      simp [haccb]

/-- One emission round over a once-listener list with no duplicate pairs:
survivors are the rejected pairs, fired callbacks the accepted ones. -/
theorem runOnceList_eq (predSem : Nat → Event → Bool) (event : Event)
    (l : List (Nat × Option Nat)) (hnd : l.Nodup) :
    runOnceList predSem event l =
      (l.filter (fun tup => !(acceptsOnce predSem event tup)),
       (l.filter (fun tup => acceptsOnce predSem event tup)).map
         Prod.fst) := by
  have := runOnceTasks_eq predSem event l [] (by simpa using hnd)
  simpa [runOnceList] using this

/-- The once task whose pair has already been removed from the live list
aborts silently: the list is untouched and the callback is not fired,
whether or not the predicate accepts. -/
theorem runOnceTasks_missing_pair (predSem : Nat → Event → Bool)
    (event : Event) (tup : Nat × Option Nat)
    (cur : List (Nat × Option Nat)) (h : tup ∉ cur) :
    runOnceTasks predSem event [tup] cur = (cur, []) := by
  by_cases hacc : acceptsOnce predSem event tup <;>
    simp [runOnceTasks, hacc, h]

namespace Observable

/-- Check `__check_event` only reads the `events` field. -/
theorem checkEvent_congr (h h' : Observable) (t : Tag)
    (he : h'.events = h.events) : h'.checkEvent t = h.checkEvent t := by
  unfold checkEvent
  rw [he]

/-- Inversion of a successful `on` registration. -/
theorem on_ok_inv (h h1 : Observable) (T : Tag) (C : Nat)
    (hk : h.on' T C = Except.ok h1) :
    h.checkEvent T = Except.ok () ∧ C ∉ h.listeners T ∧
    h1 = { h with
      listeners := Function.update h.listeners T (h.listeners T ++ [C]) } := by
  rcases checkEvent_cases h T with hc | hc
  · simp only [on', hc, exceptBind_ok] at hk
    by_cases hm : C ∈ h.listeners T
    · simp only [_check_listener, if_pos hm, exceptBind_error] at hk
      cases hk
    · simp only [_check_listener, if_neg hm, exceptBind_ok] at hk
      exact ⟨hc, hm, (Except.ok.inj hk).symm⟩
  · simp only [on', hc, exceptBind_error] at hk
    cases hk

/-- A successful `on` registration, forward direction. -/
theorem on_ok (h : Observable) (T : Tag) (C : Nat)
    (hc : h.checkEvent T = Except.ok ()) (hm : C ∉ h.listeners T) :
    h.on' T C = Except.ok { h with
      listeners := Function.update h.listeners T (h.listeners T ++ [C]) } := by
  simp only [on', hc, exceptBind_ok, _check_listener, if_neg hm]

/-- A duplicate `on` registration raises the duplicate-listener error. -/
theorem on_dup (h : Observable) (T : Tag) (C : Nat)
    (hc : h.checkEvent T = Except.ok ()) (hm : C ∈ h.listeners T) :
    h.on' T C = Except.error ObsError.duplicateListener := by
  simp only [on', hc, exceptBind_ok, _check_listener, if_pos hm,
    exceptBind_error]

/-- Inversion of a successful `once` registration. -/
theorem once_ok_inv (h h1 : Observable) (T : Tag) (C : Nat) (P : Option Nat)
    (hk : h.once T C P = Except.ok h1) :
    h.checkEvent T = Except.ok () ∧
    C ∉ (h.onceListeners T).map Prod.fst ∧
    h1 = { h with
      onceListeners := Function.update h.onceListeners T
        (h.onceListeners T ++ [(C, P)]) } := by
  rcases checkEvent_cases h T with hc | hc
  · simp only [once, hc, exceptBind_ok] at hk
    by_cases hm : C ∈ (h.onceListeners T).map Prod.fst
    · simp only [_check_listener, if_pos hm, exceptBind_error] at hk
      cases hk
    · simp only [_check_listener, if_neg hm, exceptBind_ok] at hk
      exact ⟨hc, hm, (Except.ok.inj hk).symm⟩
  · simp only [once, hc, exceptBind_error] at hk
    cases hk

/-- A successful `once` registration, forward direction. -/
theorem once_ok (h : Observable) (T : Tag) (C : Nat) (P : Option Nat)
    (hc : h.checkEvent T = Except.ok ())
    (hm : C ∉ (h.onceListeners T).map Prod.fst) :
    h.once T C P = Except.ok { h with
      onceListeners := Function.update h.onceListeners T
        (h.onceListeners T ++ [(C, P)]) } := by
  simp only [once, hc, exceptBind_ok, _check_listener, if_neg hm]

/-- A duplicate `once` registration raises the duplicate-listener error. -/
theorem once_dup (h : Observable) (T : Tag) (C : Nat) (P : Option Nat)
    (hc : h.checkEvent T = Except.ok ())
    (hm : C ∈ (h.onceListeners T).map Prod.fst) :
    h.once T C P = Except.error ObsError.duplicateListener := by
  simp only [once, hc, exceptBind_ok, _check_listener, if_pos hm,
    exceptBind_error]

end Observable

/-- C8: registering the same callback twice for the same tag via `on`
fails with the duplicate-listener error while the first registration
remains; registering it under a second (permitted, unused) tag succeeds
independently; `once` runs the same duplicate detection scoped to the
one-shot registrations of the tag, so a callback held by `on` may be
registered via `once` for the same tag, while a second `once` registration
of that callback (with any predicate) fails with the duplicate-listener
error. -/
theorem on_once_duplicate_semantics (h h1 : Observable) (T T2 : Tag)
    (C : Nat) (P : Option Nat) :
    (h.on' T C = Except.ok h1 →
      h1.on' T C = Except.error ObsError.duplicateListener ∧
      C ∈ h1.listeners T) ∧
    (h.on' T C = Except.ok h1 → T2 ≠ T →
      h.checkEvent T2 = Except.ok () → C ∉ h.listeners T2 →
      ∃ h2, h1.on' T2 C = Except.ok h2 ∧
        C ∈ h2.listeners T ∧ C ∈ h2.listeners T2) ∧
    (h.on' T C = Except.ok h1 → C ∉ (h.onceListeners T).map Prod.fst →
      ∃ h2, h1.once T C P = Except.ok h2 ∧
        C ∈ h2.listeners T ∧ (C, P) ∈ h2.onceListeners T) ∧
    (∀ P', h.once T C P = Except.ok h1 →
      h1.once T C P' = Except.error ObsError.duplicateListener ∧
      (C, P) ∈ h1.onceListeners T) := by
  refine ⟨?_, ?_, ?_, ?_⟩
  · intro hk
    obtain ⟨hc, _, hh1⟩ := Observable.on_ok_inv h h1 T C hk
    have hev : h1.events = h.events := by rw [hh1]
    have hc1 : h1.checkEvent T = Except.ok () := by
      rw [Observable.checkEvent_congr h h1 T hev]; exact hc
    have hmem : C ∈ h1.listeners T := by
      rw [hh1]; simp
    exact ⟨Observable.on_dup h1 T C hc1 hmem, hmem⟩
  · intro hk hne hc2 hm2
    obtain ⟨_, _, hh1⟩ := Observable.on_ok_inv h h1 T C hk
    have hev : h1.events = h.events := by rw [hh1]
    have hc1 : h1.checkEvent T2 = Except.ok () := by
      rw [Observable.checkEvent_congr h h1 T2 hev]; exact hc2
    have hl2 : h1.listeners T2 = h.listeners T2 := by
      rw [hh1]; simp [Function.update_apply, hne]
    have hm2' : C ∉ h1.listeners T2 := by rw [hl2]; exact hm2
    refine ⟨_, Observable.on_ok h1 T2 C hc1 hm2', ?_, ?_⟩
    · simp [Function.update_apply, Ne.symm hne, hh1]
    · simp
  · intro hk honce
    obtain ⟨hc, _, hh1⟩ := Observable.on_ok_inv h h1 T C hk
    have hev : h1.events = h.events := by rw [hh1]
    have hc1 : h1.checkEvent T = Except.ok () := by
      rw [Observable.checkEvent_congr h h1 T hev]; exact hc
    have honce1 : h1.onceListeners = h.onceListeners := by rw [hh1]
    have honce1' : C ∉ (h1.onceListeners T).map Prod.fst := by
      rw [honce1]; exact honce
    refine ⟨_, Observable.once_ok h1 T C P hc1 honce1', ?_, ?_⟩
    · simp [hh1]
    · simp [honce1]
  · intro P' hk
    obtain ⟨hc, _, hh1⟩ := Observable.once_ok_inv h h1 T C P hk
    have hev : h1.events = h.events := by rw [hh1]
    have hc1 : h1.checkEvent T = Except.ok () := by
      rw [Observable.checkEvent_congr h h1 T hev]; exact hc
    have hmem : (C, P) ∈ h1.onceListeners T := by
      rw [hh1]; simp
    have hfst : C ∈ (h1.onceListeners T).map Prod.fst := by
      exact List.mem_map.mpr ⟨(C, P), hmem, rfl⟩
    exact ⟨Observable.once_dup h1 T C P' hc1 hfst, hmem⟩

/-- Witness for C8 on a fresh unrestricted hub: register callback 7 for
tag `user 0`; the duplicate `on` fails, the `once` with the same callback
succeeds. -/
theorem on_once_duplicate_semantics_witness :
    (Observable.init none).on' (Tag.user 0) 7 = Except.ok
      { Observable.init none with
        listeners := Function.update (Observable.init none).listeners
          (Tag.user 0) ((Observable.init none).listeners (Tag.user 0)
            ++ [7]) } ∧
    ({ Observable.init none with
        listeners := Function.update (Observable.init none).listeners
          (Tag.user 0) ((Observable.init none).listeners (Tag.user 0)
            ++ [7]) } : Observable).on' (Tag.user 0) 7 =
      Except.error ObsError.duplicateListener :=
  ⟨Observable.on_ok (Observable.init none) (Tag.user 0) 7 rfl
      (by simp [Observable.init]),
    ((on_once_duplicate_semantics (Observable.init none) _ (Tag.user 0)
        (Tag.user 1) 7 none).1
      (Observable.on_ok (Observable.init none) (Tag.user 0) 7 rfl
        (by simp [Observable.init]))).1⟩

/-- Fields of a joined outcome list: `invoked` entries. -/
theorem joinOutcomes_invoked (l : List EmitOutcome) :
    (joinOutcomes l).invoked = (l.map EmitOutcome.invoked).flatten := by
  induction l with
  | nil => rfl
  | cons o rest ih => simp [joinOutcomes, EmitOutcome.append, ih]

/-- Fields of a joined outcome list: `reemitted` entries. -/
theorem joinOutcomes_reemitted (l : List EmitOutcome) :
    (joinOutcomes l).reemitted = (l.map EmitOutcome.reemitted).flatten := by
  induction l with
  | nil => rfl
  | cons o rest ih => simp [joinOutcomes, EmitOutcome.append, ih]

namespace Observable

/-- Task `__fire_listener` in ignoring mode always invokes exactly its listener
with its event, and never re-emits. -/
theorem fireListenerIg_fields (cbSem : Nat → Event → Option Nat)
    (cb : Nat) (ev : Event) :
    (fireListenerIg cbSem cb ev).invoked = [(cb, ev)] ∧
    (fireListenerIg cbSem cb ev).reemitted = [] := by
  cases hr : cbSem cb ev <;> simp [fireListenerIg, hr]

/-- Inversion of a completed ignoring emission (`ignore_exceptions=True`). -/
theorem runEmitIg_inv (cbSem : Nat → Event → Option Nat)
    (predSem : Nat → Event → Bool) (h : Observable) (ev : Event)
    (r : Observable × EmitOutcome)
    (hk : h.runEmitIg cbSem predSem ev = Except.ok r) :
    r = ({ h with
             onceListeners :=
               Function.update h.onceListeners ev.tagOf
                 (runOnceList predSem ev (h.onceListeners ev.tagOf)).1 },
         EmitOutcome.append
           { pushed := (h.emitSubscriptions ev).map (fun s => (s, ev))
             forwarded := h.childEmitters.map (fun c => (c, ev)) }
           (EmitOutcome.append
             (joinOutcomes
               (((runOnceList predSem ev (h.onceListeners ev.tagOf)).2).map
                 (fun cb => fireListenerIg cbSem cb ev)))
             (joinOutcomes ((h.listeners ev.tagOf).map
               (fun cb => fireListenerIg cbSem cb ev))))) := by
  rcases checkEvent_cases h ev.tagOf with hc | hc
  · simp only [runEmitIg, hc, exceptBind_ok] at hk
    exact (Except.ok.inj hk).symm
  · simp only [runEmitIg, hc, exceptBind_error] at hk
    cases hk

/-- A passing type check completes the ignoring emission. -/
theorem runEmitIg_check_ok (cbSem : Nat → Event → Option Nat)
    (predSem : Nat → Event → Bool) (h : Observable) (ev : Event)
    (hc : h.checkEvent ev.tagOf = Except.ok ()) :
    ∃ r, h.runEmitIg cbSem predSem ev = Except.ok r := by
  simp only [runEmitIg, hc, exceptBind_ok]
  exact ⟨_, rfl⟩

/-- Every callback invocation of an ignoring emission carries the emitted
event itself. -/
theorem runEmitIg_invoked (cbSem : Nat → Event → Option Nat)
    (predSem : Nat → Event → Bool) (h : Observable) (ev : Event)
    (r : Observable × EmitOutcome)
    (hk : h.runEmitIg cbSem predSem ev = Except.ok r) :
    ∀ p ∈ r.2.invoked, p.2 = ev := by
  rw [runEmitIg_inv cbSem predSem h ev r hk]
  intro p hp
  simp only [EmitOutcome.append, joinOutcomes_invoked] at hp
  simp only [List.mem_append, List.mem_flatten, List.mem_map] at hp
  rcases hp with hp | hp | hp
  · simp at hp
  · obtain ⟨inv, ⟨o, ⟨cb, _, rfl⟩, rfl⟩, hpin⟩ := hp
    rw [(fireListenerIg_fields cbSem cb ev).1] at hpin
    simp at hpin
    rw [hpin]
  · obtain ⟨inv, ⟨o, ⟨cb, _, rfl⟩, rfl⟩, hpin⟩ := hp
    rw [(fireListenerIg_fields cbSem cb ev).1] at hpin
    simp at hpin
    rw [hpin]

/-- An ignoring emission never re-emits: a failure while handling a
`ListenerError` is only logged. -/
theorem runEmitIg_reemitted (cbSem : Nat → Event → Option Nat)
    (predSem : Nat → Event → Bool) (h : Observable) (ev : Event)
    (r : Observable × EmitOutcome)
    (hk : h.runEmitIg cbSem predSem ev = Except.ok r) :
    r.2.reemitted = [] := by
  rw [runEmitIg_inv cbSem predSem h ev r hk]
  simp only [EmitOutcome.append, joinOutcomes_reemitted]
  simp only [List.append_eq_nil, List.flatten_eq_nil_iff]
  refine ⟨trivial, ?_, ?_⟩ <;>
  · intro l hl
    simp only [List.mem_map] at hl
    obtain ⟨o, ⟨cb, _, rfl⟩, rfl⟩ := hl
    exact (fireListenerIg_fields cbSem cb ev).2

/-- State after an ignoring emission: only the once-listener registry at
the emitted event's tag changes. -/
theorem runEmitIg_state (cbSem : Nat → Event → Option Nat)
    (predSem : Nat → Event → Bool) (h : Observable) (ev : Event)
    (r : Observable × EmitOutcome)
    (hk : h.runEmitIg cbSem predSem ev = Except.ok r) :
    r.1.listeners = h.listeners ∧ r.1.events = h.events ∧
    r.1.subscriptions = h.subscriptions ∧
    r.1.childEmitters = h.childEmitters ∧
    ∀ tg, tg ≠ ev.tagOf → r.1.onceListeners tg = h.onceListeners tg := by
  rw [runEmitIg_inv cbSem predSem h ev r hk]
  refine ⟨rfl, rfl, rfl, rfl, ?_⟩
  intro tg htg
  simp [Function.update_apply, htg]

end Observable

namespace Observable

/-- The full-mode listener task changes no registry except (through the
nested ignoring emission of a `ListenerError`) the once-listener list for
the `ListenerError` tag. -/
theorem fireListenerFull_state (cbSem : Nat → Event → Option Nat)
    (predSem : Nat → Event → Bool) (h : Observable) (cb : Nat)
    (ev : Event) :
    (fireListenerFull cbSem predSem h cb ev).1.listeners = h.listeners ∧
    (fireListenerFull cbSem predSem h cb ev).1.events = h.events ∧
    (fireListenerFull cbSem predSem h cb ev).1.subscriptions =
      h.subscriptions ∧
    (fireListenerFull cbSem predSem h cb ev).1.childEmitters =
      h.childEmitters ∧
    ∀ tg, tg ≠ Tag.listenerError →
      (fireListenerFull cbSem predSem h cb ev).1.onceListeners tg =
        h.onceListeners tg := by
  unfold fireListenerFull
  cases hr : cbSem cb ev with
  | none => exact ⟨rfl, rfl, rfl, rfl, fun _ _ => rfl⟩
  | some err =>
    dsimp only
    cases hk : h.runEmitIg cbSem predSem (Event.listenerError ev cb err) with
    | error e => exact ⟨rfl, rfl, rfl, rfl, fun _ _ => rfl⟩
    | ok r =>
      obtain ⟨h1, h2, h3, h4, h5⟩ := runEmitIg_state cbSem predSem h _ r hk
      exact ⟨h1, h2, h3, h4, fun tg htg => h5 tg htg⟩

/-- The full-mode listener task invokes its listener with its event, and
every other invocation it causes (handlers of the re-emitted failure)
receives a `ListenerError` event. -/
theorem fireListenerFull_invoked (cbSem : Nat → Event → Option Nat)
    (predSem : Nat → Event → Bool) (h : Observable) (cb : Nat)
    (ev : Event) :
    (cb, ev) ∈ (fireListenerFull cbSem predSem h cb ev).2.invoked ∧
    ∀ p ∈ (fireListenerFull cbSem predSem h cb ev).2.invoked,
      p = (cb, ev) ∨ p.2.tagOf = Tag.listenerError := by
  unfold fireListenerFull
  cases hr : cbSem cb ev with
  | none =>
    refine ⟨by simp, ?_⟩
    intro p hp
    simp at hp
    exact Or.inl hp
  | some err =>
    dsimp only
    cases hk : h.runEmitIg cbSem predSem (Event.listenerError ev cb err) with
    | error e =>
      refine ⟨by simp, ?_⟩
      intro p hp
      simp at hp
      exact Or.inl hp
    | ok r =>
      have hinv := runEmitIg_invoked cbSem predSem h _ r hk
      refine ⟨by simp [EmitOutcome.append], ?_⟩
      intro p hp
      simp only [EmitOutcome.append, List.mem_append] at hp
      rcases hp with (hp | hp) | hp
      · simp at hp
        exact Or.inl hp
      · simp at hp
      · right
        rw [hinv p hp]
        rfl

/-- The full-mode listener task re-emits exactly one `ListenerError` when
the listener fails (and the `ListenerError` tag passes the type check),
nothing otherwise. -/
theorem fireListenerFull_reemitted (cbSem : Nat → Event → Option Nat)
    (predSem : Nat → Event → Bool) (h : Observable) (cb : Nat) (ev : Event)
    (hle : h.checkEvent Tag.listenerError = Except.ok ()) :
    (fireListenerFull cbSem predSem h cb ev).2.reemitted =
      (cbSem cb ev).elim []
        (fun err => [Event.listenerError ev cb err]) := by
  cases hr : cbSem cb ev with
  | none => simp [fireListenerFull, hr]
  | some err =>
    have hle' : h.checkEvent (Event.listenerError ev cb err).tagOf =
        Except.ok () := hle
    obtain ⟨r, hk⟩ :=
      runEmitIg_check_ok cbSem predSem h (Event.listenerError ev cb err) hle'
    have hre := runEmitIg_reemitted cbSem predSem h _ r hk
    simp [fireListenerFull, hr, hk, EmitOutcome.append, hre]

/-- Running a batch of full-mode listener tasks preserves every registry
except the once-listener list for the `ListenerError` tag. -/
theorem runListenersFull_state (cbSem : Nat → Event → Option Nat)
    (predSem : Nat → Event → Bool) (ev : Event) :
    ∀ (cbs : List Nat) (h : Observable),
      (runListenersFull cbSem predSem h cbs ev).1.listeners = h.listeners ∧
      (runListenersFull cbSem predSem h cbs ev).1.events = h.events ∧
      (runListenersFull cbSem predSem h cbs ev).1.subscriptions =
        h.subscriptions ∧
      (runListenersFull cbSem predSem h cbs ev).1.childEmitters =
        h.childEmitters ∧
      ∀ tg, tg ≠ Tag.listenerError →
        (runListenersFull cbSem predSem h cbs ev).1.onceListeners tg =
          h.onceListeners tg := by
  intro cbs
  induction cbs with
  | nil => intro h; exact ⟨rfl, rfl, rfl, rfl, fun _ _ => rfl⟩
  | cons cb rest ih =>
    intro h
    have hfire := fireListenerFull_state cbSem predSem h cb ev
    have hrest := ih (fireListenerFull cbSem predSem h cb ev).1
    simp only [runListenersFull]
    exact ⟨hrest.1.trans hfire.1, hrest.2.1.trans hfire.2.1,
      hrest.2.2.1.trans hfire.2.2.1, hrest.2.2.2.1.trans hfire.2.2.2.1,
      fun tg htg => (hrest.2.2.2.2 tg htg).trans (hfire.2.2.2.2 tg htg)⟩

/-- Invocations with a non-`ListenerError` event produced by a batch of
full-mode listener tasks: exactly one per callback in the batch, carrying
the emitted event. -/
theorem runListenersFull_invoked (cbSem : Nat → Event → Option Nat)
    (predSem : Nat → Event → Bool) (ev : Event) (D : Nat) (e' : Event)
    (hne : e'.tagOf ≠ Tag.listenerError) :
    ∀ (cbs : List Nat) (h : Observable),
      ((D, e') ∈ (runListenersFull cbSem predSem h cbs ev).2.invoked ↔
        D ∈ cbs ∧ e' = ev) := by
  intro cbs
  induction cbs with
  | nil =>
    intro h
    simp [runListenersFull]
  | cons cb rest ih =>
    intro h
    simp only [runListenersFull, EmitOutcome.append, List.mem_append]
    constructor
    · intro hp
      rcases hp with hp | hp
      · rcases (fireListenerFull_invoked cbSem predSem h cb ev).2 _ hp with
          heq | hle
        · have h1 : D = cb := congrArg Prod.fst heq
          have h2 : e' = ev := congrArg Prod.snd heq
          exact ⟨by simp [h1], h2⟩
        · exact absurd hle hne
      · obtain ⟨hD, hev⟩ :=
          (ih (fireListenerFull cbSem predSem h cb ev).1).mp hp
        exact ⟨by simp [hD], hev⟩
    · intro hp
      obtain ⟨hD, rfl⟩ := hp
      rcases List.mem_cons.mp hD with rfl | hD
      · exact Or.inl (fireListenerFull_invoked cbSem predSem h D e').1
      · exact Or.inr
          ((ih (fireListenerFull cbSem predSem h cb e').1).mpr ⟨hD, rfl⟩)

/-- Re-emissions of a batch of full-mode listener tasks: exactly one
`ListenerError e cb err` per failing callback, in task order, provided the
`ListenerError` tag passes the type check; in particular failures inside
the nested handling of a `ListenerError` are never re-emitted. -/
theorem runListenersFull_reemitted (cbSem : Nat → Event → Option Nat)
    (predSem : Nat → Event → Bool) (ev : Event) :
    ∀ (cbs : List Nat) (h : Observable),
      h.checkEvent Tag.listenerError = Except.ok () →
      (runListenersFull cbSem predSem h cbs ev).2.reemitted =
        cbs.filterMap (fun cb => (cbSem cb ev).map
          (fun err => Event.listenerError ev cb err)) := by
  intro cbs
  induction cbs with
  | nil =>
    intro h _
    simp [runListenersFull]
  | cons cb rest ih =>
    intro h hle
    have hstate := fireListenerFull_state cbSem predSem h cb ev
    have hle2 : (fireListenerFull cbSem predSem h cb ev).1.checkEvent
        Tag.listenerError = Except.ok () := by
      rw [checkEvent_congr h _ _ hstate.2.1]
      exact hle
    have hfire := fireListenerFull_reemitted cbSem predSem h cb ev hle
    have hrest := ih (fireListenerFull cbSem predSem h cb ev).1 hle2
    simp only [runListenersFull, EmitOutcome.append, List.filterMap_cons]
    rw [hfire, hrest]
    cases cbSem cb ev <;> simp

end Observable

namespace Observable

/-- Inversion of a completed non-ignoring emission. -/
theorem runEmitFull_inv (cbSem : Nat → Event → Option Nat)
    (predSem : Nat → Event → Bool) (h : Observable) (ev : Event)
    (r : Observable × EmitOutcome)
    (hk : h.runEmitFull cbSem predSem ev = Except.ok r) :
    r = (let rOnce := runOnceList predSem ev (h.onceListeners ev.tagOf)
         let h1 : Observable := { h with
           onceListeners :=
             Function.update h.onceListeners ev.tagOf rOnce.1 }
         let r1 := runListenersFull cbSem predSem h1 rOnce.2 ev
         let r2 := runListenersFull cbSem predSem r1.1
           (h.listeners ev.tagOf) ev
         (r2.1,
          EmitOutcome.append
            { pushed := (h.emitSubscriptions ev).map (fun s => (s, ev))
              forwarded := h.childEmitters.map (fun c => (c, ev)) }
            (EmitOutcome.append r1.2 r2.2))) := by
  rcases checkEvent_cases h ev.tagOf with hc | hc
  · simp only [runEmitFull, hc, exceptBind_ok] at hk
    exact (Except.ok.inj hk).symm
  · simp only [runEmitFull, hc, exceptBind_error] at hk
    cases hk

/-- Every callback of a batch of full-mode listener tasks is invoked with
the emitted event, whatever the other callbacks do. -/
theorem runListenersFull_invoked_mem (cbSem : Nat → Event → Option Nat)
    (predSem : Nat → Event → Bool) (ev : Event) :
    ∀ (cbs : List Nat) (h : Observable) (cb : Nat), cb ∈ cbs →
      (cb, ev) ∈ (runListenersFull cbSem predSem h cbs ev).2.invoked := by
  intro cbs
  induction cbs with
  | nil =>
    intro h cb hcb
    cases hcb
  | cons cb0 rest ih =>
    intro h cb hcb
    simp only [runListenersFull, EmitOutcome.append, List.mem_append]
    rcases List.mem_cons.mp hcb with rfl | hcb
    · exact Or.inl (fireListenerFull_invoked cbSem predSem h cb ev).1
    · exact Or.inr (ih (fireListenerFull cbSem predSem h cb0 ev).1 cb hcb)

end Observable

/-- C2: on a hub emitting event `e` (type check passing, `ListenerError`
permitted, no duplicate one-shot callbacks), the `emit` future resolves,
and whatever the callbacks do — `cbSem` is arbitrary, so any subset may
raise — every permanent listener for the tag and every accepted one-shot
pair is still invoked with `e`, the subscription pushes and child forwards
of `e` happen exactly as scheduled (before any nested activity), and each
failing listener's error is logged and re-emitted as exactly one
`ListenerError` carrying the event, the callback and the error via an
emission with `ignore_exceptions = true`, which itself never re-emits —
a failure while handling a `ListenerError` is only logged. -/
theorem listener_failure_isolation (cbSem : Nat → Event → Option Nat)
    (predSem : Nat → Event → Bool) (h : Observable) (e : Event)
    (hc : h.checkEvent e.tagOf = Except.ok ())
    (hle : h.checkEvent Tag.listenerError = Except.ok ())
    (hnd : ((h.onceListeners e.tagOf).map Prod.fst).Nodup) :
    ∃ h2 out, h.emit cbSem predSem e = Except.ok (h2, out) ∧
      (∀ cb ∈ h.listeners e.tagOf, (cb, e) ∈ out.invoked) ∧
      (∀ tup ∈ h.onceListeners e.tagOf, acceptsOnce predSem e tup = true →
        (tup.1, e) ∈ out.invoked) ∧
      ((h.subscriptions (some e.tagOf) ++ h.subscriptions none).map
          (fun s => (s, e))) <+: out.pushed ∧
      (h.childEmitters.map (fun c => (c, e))) <+: out.forwarded ∧
      out.reemitted =
        ((runOnceList predSem e (h.onceListeners e.tagOf)).2 ++
            h.listeners e.tagOf).filterMap
          (fun cb => (cbSem cb e).map
            (fun err => Event.listenerError e cb err)) ∧
      (∀ ev' r', h.runEmitIg cbSem predSem ev' = Except.ok r' →
        r'.2.reemitted = []) := by
  obtain ⟨r, hk⟩ := Observable.runEmitFull_check_ok cbSem predSem h e hc
  have hinv := Observable.runEmitFull_inv cbSem predSem h e r hk
  set rOnce := runOnceList predSem e (h.onceListeners e.tagOf) with hrOnce
  set h1 : Observable := { h with
    onceListeners :=
      Function.update h.onceListeners e.tagOf rOnce.1 } with hh1
  set r1 := Observable.runListenersFull cbSem predSem h1 rOnce.2 e with hr1
  set r2 := Observable.runListenersFull cbSem predSem r1.1
    (h.listeners e.tagOf) e with hr2
  have hout : r.2 = EmitOutcome.append
      { pushed := (h.emitSubscriptions e).map (fun s => (s, e))
        forwarded := h.childEmitters.map (fun c => (c, e)) }
      (EmitOutcome.append r1.2 r2.2) := by
    rw [hinv]
  have hle1 : h1.checkEvent Tag.listenerError = Except.ok () := by
    rw [Observable.checkEvent_congr h h1 _ (by rw [hh1])]
    exact hle
  have hle2 : r1.1.checkEvent Tag.listenerError = Except.ok () := by
    rw [Observable.checkEvent_congr h1 r1.1 _
      (Observable.runListenersFull_state cbSem predSem e rOnce.2 h1).2.1]
    exact hle1
  refine ⟨r.1, r.2, ?_, ?_, ?_, ?_, ?_, ?_, ?_⟩
  · rw [Observable.emit, hk]
  · intro cb hcb
    rw [hout]
    simp only [EmitOutcome.append, List.mem_append]
    exact Or.inr (Or.inr
      (Observable.runListenersFull_invoked_mem cbSem predSem e _ r1.1 cb hcb))
  · intro tup htup hacc
    have hndp : (h.onceListeners e.tagOf).Nodup := List.Nodup.of_map _ hnd
    have hfired : tup.1 ∈ rOnce.2 := by
      rw [hrOnce, runOnceList_eq predSem e _ hndp]
      exact List.mem_map.mpr ⟨tup, List.mem_filter.mpr ⟨htup, hacc⟩, rfl⟩
    rw [hout]
    simp only [EmitOutcome.append, List.mem_append]
    exact Or.inr (Or.inl
      (Observable.runListenersFull_invoked_mem cbSem predSem e _ h1 tup.1
        hfired))
  · rw [hout]
    simp only [EmitOutcome.append]
    refine ⟨r1.2.pushed ++ r2.2.pushed, ?_⟩
    simp [Observable.emitSubscriptions]
  · rw [hout]
    simp only [EmitOutcome.append]
    exact ⟨r1.2.forwarded ++ r2.2.forwarded, by simp⟩
  · rw [hout]
    simp only [EmitOutcome.append]
    have hre1 := Observable.runListenersFull_reemitted cbSem predSem e
      rOnce.2 h1 hle1
    have hre2 := Observable.runListenersFull_reemitted cbSem predSem e
      (h.listeners e.tagOf) r1.1 hle2
    rw [← hr1] at hre1
    rw [← hr2] at hre2
    rw [hre1, hre2]
    simp [List.filterMap_append]
  · intro ev' r' hk'
    exact Observable.runEmitIg_reemitted cbSem predSem h ev' r' hk'

/-- Witness for C2: a hub with a single permanent listener (callback 5)
whose invocation fails with error 99. -/
theorem listener_failure_isolation_witness :
    ({ listeners := fun t => if t = Tag.user 0 then [5] else []
       onceListeners := fun _ => []
       childEmitters := []
       subscriptions := fun _ => []
       events := none } : Observable).checkEvent
        (Event.user 0 42).tagOf = Except.ok () ∧
    ({ listeners := fun t => if t = Tag.user 0 then [5] else []
       onceListeners := fun _ => []
       childEmitters := []
       subscriptions := fun _ => []
       events := none } : Observable).checkEvent Tag.listenerError =
      Except.ok () ∧
    ((({ listeners := fun t => if t = Tag.user 0 then [5] else []
         onceListeners := fun _ => []
         childEmitters := []
         subscriptions := fun _ => []
         events := none } : Observable).onceListeners
        (Event.user 0 42).tagOf).map Prod.fst).Nodup ∧
    ∃ h2 out,
      ({ listeners := fun t => if t = Tag.user 0 then [5] else []
         onceListeners := fun _ => []
         childEmitters := []
         subscriptions := fun _ => []
         events := none } : Observable).emit
          (fun cb _ => if cb = 5 then some 99 else none)
          (fun _ _ => true) (Event.user 0 42) = Except.ok (h2, out) ∧
      (∀ cb ∈ ({ listeners := fun t => if t = Tag.user 0 then [5] else []
                 onceListeners := fun _ => []
                 childEmitters := []
                 subscriptions := fun _ => []
                 events := none } : Observable).listeners
          (Event.user 0 42).tagOf, (cb, Event.user 0 42) ∈ out.invoked) ∧
      (∀ tup ∈ ({ listeners := fun t => if t = Tag.user 0 then [5] else []
                  onceListeners := fun _ => []
                  childEmitters := []
                  subscriptions := fun _ => []
                  events := none } : Observable).onceListeners
          (Event.user 0 42).tagOf,
        acceptsOnce (fun _ _ => true) (Event.user 0 42) tup = true →
        (tup.1, Event.user 0 42) ∈ out.invoked) ∧
      ((({ listeners := fun t => if t = Tag.user 0 then [5] else []
           onceListeners := fun _ => []
           childEmitters := []
           subscriptions := fun _ => []
           events := none } : Observable).subscriptions
            (some (Event.user 0 42).tagOf)
          ++ ({ listeners := fun t => if t = Tag.user 0 then [5] else []
                onceListeners := fun _ => []
                childEmitters := []
                subscriptions := fun _ => []
                events := none } : Observable).subscriptions none).map
          (fun s => (s, Event.user 0 42))) <+: out.pushed ∧
      (({ listeners := fun t => if t = Tag.user 0 then [5] else []
          onceListeners := fun _ => []
          childEmitters := []
          subscriptions := fun _ => []
          events := none } : Observable).childEmitters.map
          (fun c => (c, Event.user 0 42))) <+: out.forwarded ∧
      out.reemitted =
        ((runOnceList (fun _ _ => true) (Event.user 0 42)
            (({ listeners := fun t => if t = Tag.user 0 then [5] else []
                onceListeners := fun _ => []
                childEmitters := []
                subscriptions := fun _ => []
                events := none } : Observable).onceListeners
              (Event.user 0 42).tagOf)).2 ++
          ({ listeners := fun t => if t = Tag.user 0 then [5] else []
             onceListeners := fun _ => []
             childEmitters := []
             subscriptions := fun _ => []
             events := none } : Observable).listeners
            (Event.user 0 42).tagOf).filterMap
          (fun cb => ((fun cb _ => if cb = 5 then some 99 else none :
              Nat → Event → Option Nat) cb (Event.user 0 42)).map
            (fun err => Event.listenerError (Event.user 0 42) cb err)) ∧
      (∀ ev' r',
        ({ listeners := fun t => if t = Tag.user 0 then [5] else []
           onceListeners := fun _ => []
           childEmitters := []
           subscriptions := fun _ => []
           events := none } : Observable).runEmitIg
            (fun cb _ => if cb = 5 then some 99 else none)
            (fun _ _ => true) ev' = Except.ok r' →
        r'.2.reemitted = []) :=
  ⟨rfl, rfl, by simp,
    listener_failure_isolation
      (fun cb _ => if cb = 5 then some 99 else none) (fun _ _ => true)
      { listeners := fun t => if t = Tag.user 0 then [5] else []
        onceListeners := fun _ => []
        childEmitters := []
        subscriptions := fun _ => []
        events := none } (Event.user 0 42) rfl rfl (by simp)⟩

/-- Callbacks fired by the once tasks come from the snapshot. -/
theorem runOnceTasks_fired_subset (predSem : Nat → Event → Bool)
    (event : Event) :
    ∀ (snap cur : List (Nat × Option Nat)) (cb : Nat),
      cb ∈ (runOnceTasks predSem event snap cur).2 →
      cb ∈ snap.map Prod.fst := by
  intro snap
  induction snap with
  | nil =>
    intro cur cb hcb
    simp [runOnceTasks] at hcb
  | cons tup rest ih =>
    intro cur cb hcb
    by_cases hacc : acceptsOnce predSem event tup
    · by_cases hmem : tup ∈ cur
      · simp only [runOnceTasks, if_pos hacc, if_pos hmem] at hcb
        rcases List.mem_cons.mp hcb with rfl | hcb
        · simp
        · simp only [List.map_cons, List.mem_cons]
          exact Or.inr (ih _ cb hcb)
      · simp only [runOnceTasks, if_pos hacc, if_neg hmem] at hcb
        simp only [List.map_cons, List.mem_cons]
        exact Or.inr (ih _ cb hcb)
    · simp only [runOnceTasks, if_neg hacc] at hcb
      simp only [List.map_cons, List.mem_cons]
      exact Or.inr (ih _ cb hcb)

/-- The surviving once-listener list is a sublist of the live list. -/
theorem runOnceTasks_sublist (predSem : Nat → Event → Bool) (event : Event) :
    ∀ (snap cur : List (Nat × Option Nat)),
      ((runOnceTasks predSem event snap cur).1).Sublist cur := by
  intro snap
  induction snap with
  | nil =>
    intro cur
    simp [runOnceTasks]
  | cons tup rest ih =>
    intro cur
    by_cases hacc : acceptsOnce predSem event tup
    · by_cases hmem : tup ∈ cur
      · simp only [runOnceTasks, if_pos hacc, if_pos hmem]
        exact (ih (cur.erase tup)).trans (List.erase_sublist tup cur)
      · simp only [runOnceTasks, if_pos hacc, if_neg hmem]
        exact ih cur
    · simp only [runOnceTasks, if_neg hacc]
      exact ih cur

/-- With no duplicate one-shot callbacks, the pair `(C, P)` fires in a
round exactly when its predicate accepts the event. -/
theorem mem_fired_iff (predSem : Nat → Event → Bool) (e : Event)
    (l : List (Nat × Option Nat)) (C : Nat) (P : Option Nat)
    (hnd : (l.map Prod.fst).Nodup) (hmem : (C, P) ∈ l) :
    (C ∈ (runOnceList predSem e l).2 ↔
      acceptsOnce predSem e (C, P) = true) := by
  rw [runOnceList_eq predSem e l (List.Nodup.of_map _ hnd)]
  constructor
  · intro hC
    obtain ⟨tup, htup, hfst⟩ := List.mem_map.mp hC
    have htupl : tup ∈ l := (List.mem_filter.mp htup).1
    have : tup = (C, P) :=
      List.inj_on_of_nodup_map hnd htupl hmem (by simp [hfst])
    rw [← this]
    exact (List.mem_filter.mp htup).2
  · intro hacc
    exact List.mem_map.mpr ⟨(C, P), List.mem_filter.mpr ⟨hmem, hacc⟩, rfl⟩

namespace Observable

/-- One full emission of a user-tagged event, packaged for sequential
reasoning: the once registry for the tag becomes the round's survivors,
the permanent-listener registry and allow-list are untouched, and a
callback is invoked with the emitted event exactly when the round fired it
or it is a permanent listener of the tag. -/
theorem runEmitFull_step (cbSem : Nat → Event → Option Nat)
    (predSem : Nat → Event → Bool) (h : Observable) (e : Event) (t : Nat)
    (htag : e.tagOf = Tag.user t)
    (hc : h.checkEvent (Tag.user t) = Except.ok ()) :
    ∃ h0 out, h.runEmitFull cbSem predSem e = Except.ok (h0, out) ∧
      h0.onceListeners (Tag.user t) =
        (runOnceList predSem e (h.onceListeners (Tag.user t))).1 ∧
      h0.listeners = h.listeners ∧
      h0.events = h.events ∧
      ∀ D, ((D, e) ∈ out.invoked ↔
        D ∈ (runOnceList predSem e (h.onceListeners (Tag.user t))).2 ∨
        D ∈ h.listeners (Tag.user t)) := by
  have hc' : h.checkEvent e.tagOf = Except.ok () := by
    rw [htag]; exact hc
  obtain ⟨r, hk⟩ := runEmitFull_check_ok cbSem predSem h e hc'
  have hinv := runEmitFull_inv cbSem predSem h e r hk
  set rOnce := runOnceList predSem e (h.onceListeners e.tagOf) with hrOnce
  set h1 : Observable := { h with
    onceListeners :=
      Function.update h.onceListeners e.tagOf rOnce.1 } with hh1
  set r1 := runListenersFull cbSem predSem h1 rOnce.2 e with hr1
  set r2 := runListenersFull cbSem predSem r1.1 (h.listeners e.tagOf) e
    with hr2
  have hfst : r.1 = r2.1 := by rw [hinv]
  have hout : r.2 = EmitOutcome.append
      { pushed := (h.emitSubscriptions e).map (fun s => (s, e))
        forwarded := h.childEmitters.map (fun c => (c, e)) }
      (EmitOutcome.append r1.2 r2.2) := by
    rw [hinv]
  have hLE : Tag.user t ≠ Tag.listenerError := by simp
  have hstate1 := runListenersFull_state cbSem predSem e rOnce.2 h1
  have hstate2 := runListenersFull_state cbSem predSem e
    (h.listeners e.tagOf) r1.1
  refine ⟨r.1, r.2, by rw [hk], ?_, ?_, ?_, ?_⟩
  · rw [hfst, hr2]
    rw [(hstate2.2.2.2.2 (Tag.user t) hLE)]
    rw [hr1, (hstate1.2.2.2.2 (Tag.user t) hLE)]
    rw [hh1]
    simp only [Function.update_apply]
    rw [hrOnce]
    rw [htag]
    simp
  · rw [hfst, hr2, hstate2.1, hr1, hstate1.1, hh1]
  · rw [hfst, hr2, hstate2.2.1, hr1, hstate1.2.1, hh1]
  · intro D
    have hne : e.tagOf ≠ Tag.listenerError := by rw [htag]; exact hLE
    rw [hout]
    simp only [EmitOutcome.append, List.mem_append]
    have hiff1 := runListenersFull_invoked cbSem predSem e D e hne
      rOnce.2 h1
    have hiff2 := runListenersFull_invoked cbSem predSem e D e hne
      (h.listeners e.tagOf) r1.1
    constructor
    · intro hD
      rcases hD with hD | hD | hD
      · cases hD
      · refine Or.inl ?_
        have hm := (hiff1.mp hD).1
        rw [hrOnce] at hm
        rw [htag] at hm
        exact hm
      · refine Or.inr ?_
        have hm := (hiff2.mp hD).1
        rw [htag] at hm
        exact hm
    · intro hD
      rcases hD with hD | hD
      · refine Or.inr (Or.inl (hiff1.mpr ⟨?_, rfl⟩))
        rw [hrOnce]
        rw [htag]
        exact hD
      · refine Or.inr (Or.inr (hiff2.mpr ⟨?_, rfl⟩))
        rw [htag]
        exact hD

end Observable

namespace Observable

/-- Once the pair of callback `C` is gone from the once registry for tag
`user t` (and `C` is not a permanent listener of that tag), a sequence of
emissions of `user t`-tagged events never invokes `C` with any of them and
never brings `C` back. -/
theorem onceSeq_gone_aux (cbSem : Nat → Event → Option Nat)
    (predSem : Nat → Event → Bool) (t C : Nat) :
    ∀ (events : List Event) (h : Observable),
      (∀ e ∈ events, e.tagOf = Tag.user t) →
      h.checkEvent (Tag.user t) = Except.ok () →
      C ∉ (h.onceListeners (Tag.user t)).map Prod.fst →
      C ∉ h.listeners (Tag.user t) →
      ∃ h' outs,
        emitSeq cbSem predSem h events = Except.ok (h', outs) ∧
        outs.length = events.length ∧
        (∀ i (hi : i < events.length) (ho : i < outs.length),
          (C, events.get ⟨i, hi⟩) ∉ (outs.get ⟨i, ho⟩).invoked) ∧
        C ∉ (h'.onceListeners (Tag.user t)).map Prod.fst := by
  intro events
  induction events with
  | nil =>
    intro h _ _ hgone _
    refine ⟨h, [], rfl, rfl, ?_, hgone⟩
    intro i hi
    exact absurd hi (Nat.not_lt_zero i)
  | cons e rest ih =>
    intro h htags hc hgone hperm
    have htage : e.tagOf = Tag.user t := htags e (List.mem_cons_self e rest)
    obtain ⟨h0, out0, hk0, honce0, hlist0, hev0, hinv0⟩ :=
      runEmitFull_step cbSem predSem h e t htage hc
    have hc0 : h0.checkEvent (Tag.user t) = Except.ok () := by
      rw [checkEvent_congr h h0 _ hev0]
      exact hc
    have hgone0 : C ∉ (h0.onceListeners (Tag.user t)).map Prod.fst := by
      rw [honce0]
      intro hCmem
      obtain ⟨tup, htup, hfst⟩ := List.mem_map.mp hCmem
      have htupl : tup ∈ h.onceListeners (Tag.user t) :=
        (runOnceTasks_sublist predSem e _ _).subset htup
      exact hgone (List.mem_map.mpr ⟨tup, htupl, hfst⟩)
    have hperm0 : C ∉ h0.listeners (Tag.user t) := by
      rw [hlist0]
      exact hperm
    have htags0 : ∀ e' ∈ rest, e'.tagOf = Tag.user t :=
      fun e' he' => htags e' (List.mem_cons_of_mem e he')
    obtain ⟨h', outs, hkrest, hlen, hninv, hfinal⟩ :=
      ih h0 htags0 hc0 hgone0 hperm0
    refine ⟨h', out0 :: outs, ?_, by simp [hlen], ?_, hfinal⟩
    · simp only [emitSeq, hk0, exceptBind_ok, hkrest]
    · intro i hi ho
      cases i with
      | zero =>
        intro hCin
        rcases (hinv0 C).mp hCin with hC | hC
        · exact hgone (runOnceTasks_fired_subset predSem e _ _ C hC)
        · exact hperm hC
      | succ i' =>
        exact hninv i' (Nat.lt_of_succ_lt_succ hi)
          (Nat.lt_of_succ_lt_succ ho)

/-- While the pair `(C, P)` is registered (uniquely, `C` not a permanent
listener), a sequence of `user t`-tagged emissions invokes `C` exactly on
the first event the predicate accepts, and the pair survives exactly as
long as no event was accepted. -/
theorem onceSeq_present_aux (cbSem : Nat → Event → Option Nat)
    (predSem : Nat → Event → Bool) (t C : Nat) (P : Option Nat) :
    ∀ (events : List Event) (h : Observable),
      (∀ e ∈ events, e.tagOf = Tag.user t) →
      h.checkEvent (Tag.user t) = Except.ok () →
      ((h.onceListeners (Tag.user t)).map Prod.fst).Nodup →
      (C, P) ∈ h.onceListeners (Tag.user t) →
      C ∉ h.listeners (Tag.user t) →
      ∃ h' outs,
        emitSeq cbSem predSem h events = Except.ok (h', outs) ∧
        outs.length = events.length ∧
        (∀ i (hi : i < events.length) (ho : i < outs.length),
          ((C, events.get ⟨i, hi⟩) ∈ (outs.get ⟨i, ho⟩).invoked ↔
            (acceptsOnce predSem (events.get ⟨i, hi⟩) (C, P) = true ∧
             ∀ j (hj : j < events.length), j < i →
               acceptsOnce predSem (events.get ⟨j, hj⟩) (C, P) = false))) ∧
        ((C, P) ∈ h'.onceListeners (Tag.user t) ↔
          ∀ i (hi : i < events.length),
            acceptsOnce predSem (events.get ⟨i, hi⟩) (C, P) = false) := by
  intro events
  induction events with
  | nil =>
    intro h _ _ _ hmem _
    refine ⟨h, [], rfl, rfl, ?_, ?_⟩
    · intro i hi
      exact absurd hi (Nat.not_lt_zero i)
    · constructor
      · intro _ i hi
        exact absurd hi (Nat.not_lt_zero i)
      · intro _
        exact hmem
  | cons e rest ih =>
    intro h htags hc hnd hmem hperm
    have htage : e.tagOf = Tag.user t := htags e (List.mem_cons_self e rest)
    obtain ⟨h0, out0, hk0, honce0, hlist0, hev0, hinv0⟩ :=
      runEmitFull_step cbSem predSem h e t htage hc
    have hndp : (h.onceListeners (Tag.user t)).Nodup := List.Nodup.of_map _ hnd
    have hroeq := runOnceList_eq predSem e (h.onceListeners (Tag.user t)) hndp
    have hc0 : h0.checkEvent (Tag.user t) = Except.ok () := by
      rw [checkEvent_congr h h0 _ hev0]
      exact hc
    have hperm0 : C ∉ h0.listeners (Tag.user t) := by
      rw [hlist0]
      exact hperm
    have htags0 : ∀ e' ∈ rest, e'.tagOf = Tag.user t :=
      fun e' he' => htags e' (List.mem_cons_of_mem e he')
    have hfiredIff : (C ∈ (runOnceList predSem e
        (h.onceListeners (Tag.user t))).2 ↔
        acceptsOnce predSem e (C, P) = true) :=
      mem_fired_iff predSem e _ C P hnd hmem
    have hinvC : ((C, e) ∈ out0.invoked ↔
        acceptsOnce predSem e (C, P) = true) := by
      rw [hinv0 C]
      constructor
      · rintro (hf | hp)
        · exact hfiredIff.mp hf
        · exact absurd hp hperm
      · intro ha
        exact Or.inl (hfiredIff.mpr ha)
    by_cases hacc : acceptsOnce predSem e (C, P) = true
    · have hgone0 : C ∉ (h0.onceListeners (Tag.user t)).map Prod.fst := by
        rw [honce0, hroeq]
        intro hCmem
        obtain ⟨tup, htup, hfst⟩ := List.mem_map.mp hCmem
        have htupl : tup ∈ h.onceListeners (Tag.user t) :=
          (List.mem_filter.mp htup).1
        have htupCP : tup = (C, P) :=
          List.inj_on_of_nodup_map hnd htupl hmem (by simp [hfst])
        have hkept := (List.mem_filter.mp htup).2
        rw [htupCP] at hkept
        simp [hacc] at hkept
      obtain ⟨h', outs, hkrest, hlen, hninv, hfinal⟩ :=
        onceSeq_gone_aux cbSem predSem t C rest h0 htags0 hc0 hgone0 hperm0
      refine ⟨h', out0 :: outs, ?_, by simp [hlen], ?_, ?_⟩
      · simp only [emitSeq, hk0, exceptBind_ok, hkrest]
      · intro i hi ho
        cases i with
        | zero =>
          constructor
          · intro hCin
            exact ⟨hinvC.mp hCin, fun j hj hji =>
              absurd hji (Nat.not_lt_zero j)⟩
          · intro hrhs
            exact hinvC.mpr hrhs.1
        | succ i' =>
          constructor
          · intro hCin
            exact absurd hCin (hninv i' (Nat.lt_of_succ_lt_succ hi)
              (Nat.lt_of_succ_lt_succ ho))
          · rintro ⟨_, hall⟩
            have h0acc : acceptsOnce predSem e (C, P) = false :=
              hall 0 (Nat.succ_pos _) (Nat.succ_pos i')
            rw [hacc] at h0acc
            cases h0acc
      · constructor
        · intro hCP
          exact absurd (List.mem_map.mpr ⟨(C, P), hCP, rfl⟩) hfinal
        · intro hall
          have h0acc : acceptsOnce predSem e (C, P) = false :=
            hall 0 (Nat.succ_pos _)
          rw [hacc] at h0acc
          cases h0acc
    · have haccf : acceptsOnce predSem e (C, P) = false := by
        revert hacc
        cases acceptsOnce predSem e (C, P) <;> simp
      have hmem0 : (C, P) ∈ h0.onceListeners (Tag.user t) := by
        rw [honce0, hroeq]
        exact List.mem_filter.mpr ⟨hmem, by simp [haccf]⟩
      have hnd0 : ((h0.onceListeners (Tag.user t)).map Prod.fst).Nodup := by
        rw [honce0]
        exact List.Nodup.sublist
          (List.Sublist.map _ (runOnceTasks_sublist predSem e _ _)) hnd
      obtain ⟨h', outs, hkrest, hlen, hiff, hfinal⟩ :=
        ih h0 htags0 hc0 hnd0 hmem0 hperm0
      refine ⟨h', out0 :: outs, ?_, by simp [hlen], ?_, ?_⟩
      · simp only [emitSeq, hk0, exceptBind_ok, hkrest]
      · intro i hi ho
        cases i with
        | zero =>
          constructor
          · intro hCin
            exact absurd (hinvC.mp hCin) hacc
          · rintro ⟨ha, _⟩
            exact absurd ha hacc
        | succ i' =>
          have hi' : i' < rest.length := Nat.lt_of_succ_lt_succ hi
          have ho' : i' < outs.length := Nat.lt_of_succ_lt_succ ho
          have hstep := hiff i' hi' ho'
          constructor
          · intro hCin
            obtain ⟨ha, hall⟩ := hstep.mp hCin
            refine ⟨ha, ?_⟩
            intro j hj hji
            cases j with
            | zero => exact haccf
            | succ j' =>
              exact hall j' (Nat.lt_of_succ_lt_succ hj)
                (Nat.lt_of_succ_lt_succ hji)
          · rintro ⟨ha, hall⟩
            refine hstep.mpr ⟨ha, ?_⟩
            intro j' hj' hji'
            exact hall (j' + 1) (Nat.succ_lt_succ hj')
              (Nat.succ_lt_succ hji')
      · rw [hfinal]
        constructor
        · intro hall i hi
          cases i with
          | zero => exact haccf
          | succ i' => exact hall i' (Nat.lt_of_succ_lt_succ hi)
        · intro hall i' hi'
          exact hall (i' + 1) (Nat.succ_lt_succ hi')

end Observable

/-- C1: after registering the one-shot pair `(C, P)` via `once` on tag
`user t` (on a hub whose one-shot callbacks for that tag are the
registrations `once` built, hence duplicate-free, and where `C` is not also
a permanent listener), any sequence of emissions of `user t`-tagged events
invokes `C` exactly on the first event `P` accepts (always, when `P` is
absent) and never again; rejected emissions leave the pair in the
registry, the pair is gone from the registry exactly when some emission
was accepted (the removal happens in the firing task before the callback
runs), and a once task whose pair is already gone from the live list
aborts silently without firing. -/
theorem once_fires_exactly_once (cbSem : Nat → Event → Option Nat)
    (predSem : Nat → Event → Bool) (h h1 : Observable) (t C : Nat)
    (P : Option Nat) (events : List Event)
    (hreg : h.once (Tag.user t) C P = Except.ok h1)
    (hnd : ((h.onceListeners (Tag.user t)).map Prod.fst).Nodup)
    (htags : ∀ e ∈ events, e.tagOf = Tag.user t)
    (hperm : C ∉ h1.listeners (Tag.user t)) :
    ∃ h' outs,
      Observable.emitSeq cbSem predSem h1 events = Except.ok (h', outs) ∧
      outs.length = events.length ∧
      (∀ i (hi : i < events.length) (ho : i < outs.length),
        ((C, events.get ⟨i, hi⟩) ∈ (outs.get ⟨i, ho⟩).invoked ↔
          (acceptsOnce predSem (events.get ⟨i, hi⟩) (C, P) = true ∧
           ∀ j (hj : j < events.length), j < i →
             acceptsOnce predSem (events.get ⟨j, hj⟩) (C, P) = false))) ∧
      ((C, P) ∈ h'.onceListeners (Tag.user t) ↔
        ∀ i (hi : i < events.length),
          acceptsOnce predSem (events.get ⟨i, hi⟩) (C, P) = false) ∧
      (∀ ev cur, (C, P) ∉ cur →
        runOnceTasks predSem ev [(C, P)] cur = (cur, [])) := by
  obtain ⟨hc, hfirst, hh1⟩ := Observable.once_ok_inv h h1 _ C P hreg
  have hc1 : h1.checkEvent (Tag.user t) = Except.ok () := by
    rw [Observable.checkEvent_congr h h1 _ (by rw [hh1])]
    exact hc
  have honce1 : h1.onceListeners (Tag.user t) =
      h.onceListeners (Tag.user t) ++ [(C, P)] := by
    rw [hh1]
    simp
  have hnd1 : ((h1.onceListeners (Tag.user t)).map Prod.fst).Nodup := by
    rw [honce1]
    simp only [List.map_append, List.map_cons, List.map_nil]
    rw [List.nodup_append]
    refine ⟨hnd, List.nodup_singleton C, ?_⟩
    intro a ha hb
    simp only [List.mem_singleton] at hb
    subst hb
    exact hfirst ha
  have hmem1 : (C, P) ∈ h1.onceListeners (Tag.user t) := by
    rw [honce1]
    simp
  obtain ⟨h', outs, hseq, hlen, hiff, hfin⟩ :=
    Observable.onceSeq_present_aux cbSem predSem t C P events h1 htags hc1
      hnd1 hmem1 hperm
  exact ⟨h', outs, hseq, hlen, hiff, hfin,
    fun ev cur hn => runOnceTasks_missing_pair predSem ev (C, P) cur hn⟩

/-- Witness for C1: register callback 7 with no predicate for tag
`user 0` on a fresh hub, then emit two `user 0` events. -/
theorem once_fires_exactly_once_witness :
    (Observable.init none).once (Tag.user 0) 7 none = Except.ok
      { Observable.init none with
        onceListeners := Function.update
          (Observable.init none).onceListeners (Tag.user 0)
          ((Observable.init none).onceListeners (Tag.user 0)
            ++ [(7, none)]) } ∧
    (((Observable.init none).onceListeners (Tag.user 0)).map
      Prod.fst).Nodup ∧
    (∀ e ∈ [Event.user 0 1, Event.user 0 2], e.tagOf = Tag.user 0) ∧
    7 ∉ ({ Observable.init none with
        onceListeners := Function.update
          (Observable.init none).onceListeners (Tag.user 0)
          ((Observable.init none).onceListeners (Tag.user 0)
            ++ [(7, none)]) } : Observable).listeners (Tag.user 0) ∧
    ∃ h' outs,
      Observable.emitSeq (fun _ _ => none) (fun _ _ => true)
        { Observable.init none with
          onceListeners := Function.update
            (Observable.init none).onceListeners (Tag.user 0)
            ((Observable.init none).onceListeners (Tag.user 0)
              ++ [(7, none)]) } [Event.user 0 1, Event.user 0 2] =
        Except.ok (h', outs) ∧
      outs.length = [Event.user 0 1, Event.user 0 2].length ∧
      (∀ i (hi : i < [Event.user 0 1, Event.user 0 2].length)
          (ho : i < outs.length),
        ((7, [Event.user 0 1, Event.user 0 2].get ⟨i, hi⟩) ∈
            (outs.get ⟨i, ho⟩).invoked ↔
          (acceptsOnce (fun _ _ => true)
              ([Event.user 0 1, Event.user 0 2].get ⟨i, hi⟩)
              (7, none) = true ∧
           ∀ j (hj : j < [Event.user 0 1, Event.user 0 2].length), j < i →
             acceptsOnce (fun _ _ => true)
               ([Event.user 0 1, Event.user 0 2].get ⟨j, hj⟩)
               (7, none) = false))) ∧
      ((7, (none : Option Nat)) ∈ h'.onceListeners (Tag.user 0) ↔
        ∀ i (hi : i < [Event.user 0 1, Event.user 0 2].length),
          acceptsOnce (fun _ _ => true)
            ([Event.user 0 1, Event.user 0 2].get ⟨i, hi⟩)
            (7, none) = false) ∧
      (∀ ev cur, (7, (none : Option Nat)) ∉ cur →
        runOnceTasks (fun _ _ => true) ev [(7, none)] cur = (cur, [])) :=
  ⟨Observable.once_ok (Observable.init none) (Tag.user 0) 7 none rfl
      (by simp [Observable.init]),
   by simp [Observable.init],
   (by decide),
   by simp [Observable.init],
   once_fires_exactly_once (fun _ _ => none) (fun _ _ => true)
     (Observable.init none) _ 0 7 none [Event.user 0 1, Event.user 0 2]
     (Observable.once_ok (Observable.init none) (Tag.user 0) 7 none rfl
       (by simp [Observable.init]))
     (by simp [Observable.init])
     (by decide)
     (by simp [Observable.init])⟩
